import Mathlib

/-!
Verification of the texbridge LaTeX round-trip pipeline.

Texts are modelled as `List Char` (named `Text`); each Python function of
the scripts is translated into an executable Lean function on `Text`.
Regular-expression substitutions are translated into explicit left-to-right
scanners that mirror Python `re.sub` semantics (leftmost match, greedy or
non-greedy groups as in the original pattern, scanning resumes after the
end of each match).  Scanners that jump over a matched region use a fuel
argument initialised with the length of the input; since every match
consumes at least one character, this fuel is never exhausted.
-/

namespace Texbridge

/-- A text is a list of characters (a Python `str`). -/
abbrev Text := List Char

/-- Coerce a Lean string literal into our character-list texts. -/
def str (s : String) : Text := s.data

/-- Boolean prefix test: `pref p t` is true when `p` is a prefix of `t`. -/
def pref : Text → Text → Bool
  | [], _ => true
  | _ :: _, [] => false
  | p :: ps, c :: cs => p == c && pref ps cs

/-- Boolean substring test, mirroring Python's `in` operator on strings. -/
def containsSub (pat : Text) : Text → Bool
  | [] => pref pat []
  | c :: rest => pref pat (c :: rest) || containsSub pat rest

/-- Split at the first occurrence of `pat`: returns the part before the
match and the part after it, or `none` when `pat` does not occur. -/
def splitOnceStr (pat : Text) : Text → Option (Text × Text)
  | [] => if pref pat [] then some ([], []) else none
  | c :: rest =>
    if pref pat (c :: rest) then some ([], (c :: rest).drop pat.length)
    else (splitOnceStr pat rest).map (fun pr => (c :: pr.1, pr.2))

/-- Python whitespace (`\s` for `str` patterns / `str.isspace`). -/
def pySpace (c : Char) : Bool :=
  c == ' ' || c == '\t' || c == '\n' || c == '\x0b' || c == '\x0c' || c == '\r' ||
  (0x1c ≤ c.val && c.val ≤ 0x1f) || c.val == 0x85 || c.val == 0xa0 ||
  c.val == 0x1680 || (0x2000 ≤ c.val && c.val ≤ 0x200a) ||
  c.val == 0x2028 || c.val == 0x2029 || c.val == 0x202f ||
  c.val == 0x205f || c.val == 0x3000

/-- A decimal digit (`\d` on the ASCII texts this project processes). -/
def pyDigit (c : Char) : Bool := c.isDigit

/-- Python `str.strip()`: remove leading and trailing whitespace. -/
def pyStrip (t : Text) : Text :=
  ((t.dropWhile pySpace).reverse.dropWhile pySpace).reverse

/-- Python `str.rstrip()`: remove trailing whitespace. -/
def pyRstrip (t : Text) : Text :=
  (t.reverse.dropWhile pySpace).reverse

/-- Python `str.split('\n')`. -/
def splitLines : Text → List Text
  | [] => [[]]
  | c :: rest =>
    if c == '\n' then [] :: splitLines rest
    else
      match splitLines rest with
      | [] => [[c]]
      | l :: ls => (c :: l) :: ls

/-- Python `'\n'.join(...)`. -/
def joinLines : List Text → Text
  | [] => []
  | [l] => l
  | l :: ls => l ++ '\n' :: joinLines ls

/-- Python `str.replace(pat, rep)` (all occurrences, left to right,
non-overlapping), fuel-driven version; also the core of the literal
`re.sub` substitutions.  Every use supplies a non-empty `pat`. -/
def replAllGo (pat rep : Text) : Nat → Text → Text
  | 0, t => t
  | _ + 1, [] => []
  | n + 1, c :: rest =>
    if pref pat (c :: rest) then rep ++ replAllGo pat rep n ((c :: rest).drop pat.length)
    else c :: replAllGo pat rep n rest

/-- Python `str.replace(pat, rep)` with sufficient fuel. -/
def pyReplaceAll (pat rep t : Text) : Text := replAllGo pat rep t.length t

/-- `re.sub(pat, rep, t, count=1)` for a literal pattern, and
`str.replace(pat, rep, 1)`: replace only the first occurrence. -/
def pyReplaceFirst (pat rep : Text) : Text → Text
  | [] => []
  | c :: rest =>
    if pref pat (c :: rest) then rep ++ (c :: rest).drop pat.length
    else c :: pyReplaceFirst pat rep rest

/-- Python `str.replace(c, rep)` for a single-character pattern: replaces
character-wise. -/
def replChar (c : Char) (rep : Text) : Text → Text
  | [] => []
  | x :: rest => (if x == c then rep else [x]) ++ replChar c rep rest

/-- Python `str.replace(ab, rep)` for a two-character pattern `a b`:
left-to-right, non-overlapping. -/
def repl2 (a b : Char) (rep : Text) : Text → Text
  | [] => []
  | [x] => [x]
  | x :: y :: rest =>
    if x == a && y == b then rep ++ repl2 a b rep rest
    else x :: repl2 a b rep (y :: rest)

/-- Generic one-rule `re.sub` scanner: `f` inspects the text at the current
position and either returns `(replacement, text after the match)` or `none`;
on `none` the scanner emits one character and advances.  Fuel starts at the
input's length; every match consumes at least one character, so the fuel
suffices. -/
def scanSub (f : Text → Option (Text × Text)) : Nat → Text → Text
  | 0, t => t
  | _ + 1, [] => []
  | n + 1, c :: rest =>
    match f (c :: rest) with
    | some (emit, after) => emit ++ scanSub f n after
    | none => c :: scanSub f n rest

/-- Run a one-rule substitution over a whole text. -/
def runSub (f : Text → Option (Text × Text)) (t : Text) : Text :=
  scanSub f t.length t

/-- Fuel-driven digit expansion (the fuel bounds the number of digits;
`natDigits` supplies `n` itself, always enough). -/
def natDigitsGo : Nat → Nat → Text
  | 0, n => [Char.ofNat (48 + n % 10)]
  | fuel + 1, n =>
    if n < 10 then [Char.ofNat (48 + n)]
    else natDigitsGo fuel (n / 10) ++ [Char.ofNat (48 + n % 10)]

/-- Decimal digits of a natural number, as Python `str(n)` produces them. -/
def natDigits (n : Nat) : Text := natDigitsGo n n

/-- Parse a run of decimal digits (Python `int(...)` on the `\d+` group). -/
def digitsToNat (ds : Text) : Nat :=
  ds.foldl (fun n c => 10 * n + (c.toNat - 48)) 0

/-- Try `f n`, `f (n-1)`, …, `f 0` in order and return the first success:
the backtracking order of a greedy regex quantifier. -/
def descTry {α : Type} (f : Nat → Option α) : Nat → Option α
  | 0 => f 0
  | n + 1 =>
    match f (n + 1) with
    | some x => some x
    | none => descTry f n

/-! ### convert_to_listings.py: the Block Classifier -/

/-- The box-drawing / tree-diagram glyphs of `art_pattern`
(`[+|├└┌┐┘┤┬┴┼─│]`). -/
def isArtChar (c : Char) : Bool :=
  c == '+' || c == '|' || c == '├' || c == '└' || c == '┌' || c == '┐' ||
  c == '┘' || c == '┤' || c == '┬' || c == '┴' || c == '┼' || c == '─' || c == '│'

/-- `lines = [l for l in code.strip().split('\n') if l.strip()]`: the
non-blank lines of a literal block. -/
def nonBlankLines (code : Text) : List Text :=
  (splitLines (pyStrip code)).filter (fun l => !(pyStrip l).isEmpty)

/-- The non-blank lines that contain a box-drawing glyph
(`art_pattern.search(l)`). -/
def artLineCount (code : Text) : Nat :=
  ((nonBlankLines code).filter (fun l => l.any isArtChar)).length

/-- Floor of the base-2 logarithm, fuel-driven (the recursion depth is the
bit length, far below the fuel `n` itself). -/
def log2Go : Nat → Nat → Nat
  | 0, _ => 0
  | f + 1, n => if 2 ≤ n then log2Go f (n / 2) + 1 else 0

/-- `floor(log2 n)` for `n ≥ 1` (and 0 at 0). -/
def nlog2 (n : Nat) : Nat := log2Go n n

/-- Round `n / 2^k` to the nearest integer, ties to even (the IEEE-754
default rounding used by CPython's float arithmetic). -/
def roundHalfEven (n k : Nat) : Nat :=
  if k = 0 then n
  else
    let q := n / 2 ^ k
    let r := n % 2 ^ k
    let h := 2 ^ k / 2
    if r < h then q
    else if h < r then q + 1
    else if q % 2 = 0 then q else q + 1

/-- The mantissa of the IEEE-754 double nearest 0.3: the literal `0.3` in
`is_ascii_art` denotes exactly `m03 * 2^(-54)`. -/
def m03 : Nat := 5404319552844595

/-- Round the positive value `n * 2^E` (`n ≥ 1`) to double precision,
round-half-even, returning the normalised mantissa-exponent pair
`(m, e)` with `2^52 ≤ m < 2^53` and value `m * 2^e`, or `none` for
overflow to infinity.  (Zero and subnormals do not arise for the values
this development rounds: lengths ≥ 1 and products ≥ 0.3.) -/
def roundFloat (n : Nat) (E : Int) : Option (Nat × Int) :=
  let b := nlog2 n
  if b ≤ 52 then some (n * 2 ^ (52 - b), E - ((52 : Int) - b))
  else
    let k := b - 52
    let m := roundHalfEven n k
    let pr : Nat × Int := if m = 2 ^ 53 then (2 ^ 52, E + k + 1) else (m, E + k)
    if 972 ≤ pr.2 then none else some pr

/-- The Python test `art_lines >= len(lines) * 0.3`, faithfully: the
integer length is converted to a double (rounded for lengths at or above
2^53), multiplied by the double 0.3 with one more rounding, and the
integer `art_lines` is compared exactly against the resulting double
(CPython compares an int with a float without converting the int).  An
overflowing conversion (`none`, value infinity) makes the comparison
false; CPython would raise OverflowError there, but such lengths exceed
every possible list length.  This function was cross-checked against
CPython's native evaluation on 314029 inputs including the boundary
regions near 30% and lengths beyond 2^53. -/
def floatGe03 (art len : Nat) : Bool :=
  if len = 0 then true
  else
    match roundFloat len 0 with
    | none => false
    | some pr1 =>
      match roundFloat (pr1.1 * m03) (pr1.2 - 54) with
      | none => false
      | some pr =>
        if 0 ≤ pr.2 then decide (pr.1 * 2 ^ pr.2.toNat ≤ art)
        else decide (pr.1 ≤ art * 2 ^ (-pr.2).toNat)

/-- `is_ascii_art` of convert_to_listings.py:
`art_lines >= len(lines) * 0.3` under double-precision arithmetic. -/
def is_ascii_art (code : Text) : Bool :=
  let lines := nonBlankLines code
  if lines.isEmpty then false
  else floatGe03 (artLineCount code) lines.length

/-- `MIN_LINES = 5`. -/
def MIN_LINES : Nat := 5

/-- The classifier decision of `process_file`: a verbatim block is
converted unless `len(lines) < MIN_LINES or is_ascii_art(code)`. -/
def acceptBlock (code : Text) : Bool :=
  !(decide ((nonBlankLines code).length < MIN_LINES) || is_ascii_art code)

/-- Art-line count of the C2 counterexample block. -/
def c2A : Nat := 1217591223036386

/-- Plain-line count of the C2 counterexample block
(total lines 4058637410121287 = c2A + c2B, with 10*c2A < 3*(c2A+c2B)). -/
def c2B : Nat := 2841046187084901

/-- The C2 counterexample block: `c2A` lines `+` and `c2B` lines `x`.
Strictly fewer than 30% of its non-blank lines contain box-drawing
glyphs, yet the double `4058637410121287 * 0.3` rounds down to exactly
1217591223036386.0, so Python's `art_lines >= len(lines)*0.3` holds and
the block is rejected. -/
def c2Bad : Text :=
  joinLines (List.replicate c2A ['+'] ++ List.replicate c2B ['x'])

/-! ### Caption escaping (convert_to_listings.py `escape_caption`) and its
reverse (the four `caption.replace` calls in preprocess_tex.py
`replace_listing`) -/

/-- `escape_caption`: replace `_`, `#`, `&`, `%` by their backslash-escaped
forms, in that order. -/
def escape_caption (t : Text) : Text :=
  replChar '%' (str "\\%")
    (replChar '&' (str "\\&")
      (replChar '#' (str "\\#")
        (replChar '_' (str "\\_") t)))

/-- The caption clean-up of `replace_listing`:
`caption.replace('\_','_').replace('\#','#').replace('\&','&').replace('\%','%')`. -/
def unescape_caption (t : Text) : Text :=
  repl2 '\\' '%' (str "%")
    (repl2 '\\' '&' (str "&")
      (repl2 '\\' '#' (str "#")
        (repl2 '\\' '_' (str "_") t)))

/-- Character-wise escaping against a set of special characters: the common
shape of the intermediate stages of `escape_caption`. -/
def encOne (sp : List Char) (c : Char) : Text :=
  if c ∈ sp then ['\\', c] else [c]

/-- Map `encOne` over a text. -/
def escL (sp : List Char) : Text → Text
  | [] => []
  | c :: rest => encOne sp c ++ escL sp rest

/-! ### fix_roundtrip.py: the Reverse Repair Pipeline -/

/-- Matcher for `remove_toc_section`'s pattern
`\\section\{Table of Contents\}\\label\{[^}]*\}\s*\n?`: after the literal
head, a possibly empty run of non-`}` characters, the closing brace, and
(`\s*` being greedy with the optional `\n` then matching empty) the whole
following whitespace run. -/
def tryToc (t : Text) : Option (Text × Text) :=
  if pref (str "\\section\x7bTable of Contents\x7d\\label\x7b") t then
    let r := t.drop (str "\\section\x7bTable of Contents\x7d\\label\x7b").length
    let body := r.takeWhile (fun c => c != '}')
    match r.drop body.length with
    | '}' :: r2 => some ([], r2.dropWhile pySpace)
    | _ => none
  else none

/-- `remove_toc_section` of fix_roundtrip.py. -/
def remove_toc_section (t : Text) : Text := runSub tryToc t

/-- The single-line display-math rewrite `^\\\[(.+?)\\\]$` (MULTILINE, `.`
not matching newline): a match is exactly a whole line that starts with
`\[`, ends with `\]` and has non-empty content between. -/
def displayLine (l : Text) : Text :=
  if pref (str "\\[") l && pref (str "]\\") l.reverse && decide (5 ≤ l.length) then
    str "\\begin\x7bequation\x7d" ++ '\n' ::
      ((l.drop 2).take (l.length - 4) ++ '\n' :: str "\\end\x7bequation\x7d")
  else l

/-- The terminator search of the multi-line display-math pattern, i.e. the
non-greedy `(.*?)` followed by `\n\s*\\\]` (DOTALL): the shortest content
whose end is a newline, a whitespace run, and `\]` (since `\]` starts with
a non-whitespace character, only the full whitespace run can precede it). -/
def dispEndScan : Text → Option (Text × Text)
  | [] => none
  | c :: rest =>
    if c == '\n' && pref (str "\\]") (rest.dropWhile pySpace) then
      some ([], (rest.dropWhile pySpace).drop 2)
    else (dispEndScan rest).map (fun pr => (c :: pr.1, pr.2))

/-- Matcher for the multi-line display-math pattern
`\\\[\s*\n(.*?)\n\s*\\\]` (DOTALL).  After `\[`, the greedy `\s*` and the
`\n` split the leading whitespace run at a newline, trying the rightmost
newline first (regex backtracking order), and the content search follows. -/
def tryDispMulti (t : Text) : Option (Text × Text) :=
  if pref (str "\\[") t then
    let r := t.drop 2
    let run := r.takeWhile pySpace
    let tl := r.drop run.length
    descTry (fun i =>
      match run.drop i with
      | '\n' :: after =>
        (dispEndScan (after ++ tl)).map (fun pr =>
          (str "\\begin\x7bequation\x7d" ++ '\n' :: pr.1 ++
            '\n' :: str "\\end\x7bequation\x7d", pr.2))
      | _ => none) (run.length - 1)
  else none

/-- `fix_display_math` of fix_roundtrip.py: the single-line substitution,
then the multi-line one. -/
def fix_display_math (t : Text) : Text :=
  runSub tryDispMulti (joinLines ((splitLines t).map displayLine))

/-- Content scan of `fix_inline_math`'s `((?:[^\\]|\\.)*?)` up to the
closing `\)`: the non-greedy stop at `\)` is checked first, an escaped
pair `\c` is consumed whole, and any other character singly. -/
def inlineScan : Text → Option (Text × Text)
  | '\\' :: ')' :: rest => some ([], rest)
  | '\\' :: d :: rest => (inlineScan rest).map (fun pr => ('\\' :: d :: pr.1, pr.2))
  | c :: rest => (inlineScan rest).map (fun pr => (c :: pr.1, pr.2))
  | [] => none

/-- Matcher for `fix_inline_math`'s `\\\(((?:[^\\]|\\.)*?)\\\)`. -/
def tryInline (t : Text) : Option (Text × Text) :=
  if pref (str "\\(") t then
    (inlineScan (t.drop 2)).map (fun pr => ('$' :: pr.1 ++ ['$'], pr.2))
  else none

/-- `fix_inline_math` of fix_roundtrip.py. -/
def fix_inline_math (t : Text) : Text := runSub tryInline t

/-- Matcher for `fix_hyperref`'s `\\hyperref\[([^\]]+)\]\{[^}]*\}`. -/
def tryHyperref (t : Text) : Option (Text × Text) :=
  if pref (str "\\hyperref[") t then
    let r := t.drop (str "\\hyperref[").length
    let lbl := r.takeWhile (fun c => c != ']')
    if lbl.isEmpty then none
    else
      match r.drop lbl.length with
      | ']' :: '{' :: r2 =>
        let body := r2.takeWhile (fun c => c != '}')
        match r2.drop body.length with
        | '}' :: r3 => some (str "\\ref\x7b" ++ lbl ++ ['}'], r3)
        | _ => none
      | _ => none
  else none

/-- `fix_hyperref` of fix_roundtrip.py. -/
def fix_hyperref (t : Text) : Text := runSub tryHyperref t

/-- Matcher for `(\lit)\d+\s+` (the `\section` rule of
`strip_section_numbers`): the literal head, one or more digits, one or
more whitespace characters; the match is replaced by the head alone. -/
def trySecNum (lit : Text) (t : Text) : Option (Text × Text) :=
  if pref lit t then
    let r := t.drop lit.length
    let ds := r.takeWhile pyDigit
    let r2 := r.drop ds.length
    let ws := r2.takeWhile pySpace
    if ds.isEmpty || ws.isEmpty then none
    else some (lit, r2.drop ws.length)
  else none

/-- Matcher for `(\lit)\d+\.\d+\s+` (the `\subsection` and
`\texorpdfstring` rules of `strip_section_numbers`). -/
def trySubNum (lit : Text) (t : Text) : Option (Text × Text) :=
  if pref lit t then
    let r := t.drop lit.length
    let d1 := r.takeWhile pyDigit
    if d1.isEmpty then none
    else
      match r.drop d1.length with
      | '.' :: r2 =>
        let d2 := r2.takeWhile pyDigit
        if d2.isEmpty then none
        else
          let r3 := r2.drop d2.length
          let ws := r3.takeWhile pySpace
          if ws.isEmpty then none else some (lit, r3.drop ws.length)
      | _ => none
  else none

/-- Consume up to `k` groups of `\.\d+` greedily, returning how many were
consumed and the rest of the text. -/
def dotNumGroups : Nat → Text → Nat × Text
  | 0, t => (0, t)
  | k + 1, t =>
    match t with
    | '.' :: r =>
      let ds := r.takeWhile pyDigit
      if ds.isEmpty then (0, t)
      else
        let pr := dotNumGroups k (r.drop ds.length)
        (pr.1 + 1, pr.2)
    | _ => (0, t)

/-- Matcher for `(\\subsubsection\{)\d+(?:\.\d+){2,3}\.?\s*`. -/
def trySubsubNum (t : Text) : Option (Text × Text) :=
  if pref (str "\\subsubsection\x7b") t then
    let r := t.drop (str "\\subsubsection\x7b").length
    let d1 := r.takeWhile pyDigit
    if d1.isEmpty then none
    else
      let r1 := r.drop d1.length
      let pr := dotNumGroups 3 r1
      if pr.1 < 2 then none
      else
        let r3 := match pr.2 with
          | '.' :: rr => rr
          | _ => pr.2
        some (str "\\subsubsection\x7b", r3.dropWhile pySpace)
  else none

/-- `strip_section_numbers` of fix_roundtrip.py: the four substitutions in
source order (`\section`, `\subsection`, `\subsubsection`,
`\texorpdfstring`). -/
def strip_section_numbers (t : Text) : Text :=
  runSub (trySubNum (str "\\subsection\x7b\\texorpdfstring\x7b"))
    (runSub trySubsubNum
      (runSub (trySubNum (str "\\subsection\x7b"))
        (runSub (trySecNum (str "\\section\x7b")) t)))

/-- One line of `fix_section_hierarchy`: a line containing one of the three
promote patterns and `\subsection` has its first `\subsection` replaced by
`\section`. -/
def promoteLine (l : Text) : Text :=
  if (containsSub (str "ПРАКТИЧНА ЧАСТИНА") l ||
      containsSub (str "ПРОГРАМНА РЕАЛІЗАЦІЯ") l ||
      containsSub (str "Опис експериментального стенду") l) &&
      containsSub (str "\\subsection") l then
    pyReplaceFirst (str "\\subsection") (str "\\section") l
  else l

/-- `fix_section_hierarchy` of fix_roundtrip.py. -/
def fix_section_hierarchy (t : Text) : Text :=
  joinLines ((splitLines t).map promoteLine)

/-- `fix_en_dashes`'s `(?<!-)--(?!-)` scanner: `prevDash` tracks whether
the previous source character was a dash (the lookbehind). -/
def enDashGo (prevDash : Bool) : Text → Text
  | '-' :: '-' :: rest =>
    if !prevDash && rest.head? != some '-' then '–' :: enDashGo false rest
    else '-' :: enDashGo true ('-' :: rest)
  | '-' :: rest => '-' :: enDashGo true rest
  | c :: rest => c :: enDashGo false rest
  | [] => []

/-- `fix_en_dashes` of fix_roundtrip.py. -/
def fix_en_dashes (t : Text) : Text := enDashGo false t

/-- Matcher for `fix_list_formatting`'s `(\\item)\s*\n\s+`: the whitespace
run after `\item` must contain a newline that is not its last character
(so that `\s+` has at least one character); the whole run is replaced by
one space. -/
def tryItem (t : Text) : Option (Text × Text) :=
  if pref (str "\\item") t then
    let r := t.drop (str "\\item").length
    let run := r.takeWhile pySpace
    if run.dropLast.contains '\n' then some (str "\\item ", r.drop run.length)
    else none
  else none

/-- `fix_list_formatting` of fix_roundtrip.py. -/
def fix_list_formatting (t : Text) : Text := runSub tryItem t

/-- `fix_unnumbered_sections` of fix_roundtrip.py: the three literal
substitutions in source order (ВСТУП, ВИСНОВКИ, СПИСОК ВИКОРИСТАНИХ
ДЖЕРЕЛ). -/
def fix_unnumbered_sections (t : Text) : Text :=
  pyReplaceAll (str "\\section\x7bСПИСОК ВИКОРИСТАНИХ ДЖЕРЕЛ\x7d")
    (str "\\section*\x7bСПИСОК ВИКОРИСТАНИХ ДЖЕРЕЛ\x7d")
    (pyReplaceAll (str "\\section\x7bВИСНОВКИ\x7d") (str "\\section*\x7bВИСНОВКИ\x7d")
      (pyReplaceAll (str "\\section\x7bВСТУП\x7d") (str "\\section*\x7bВСТУП\x7d") t))

/-- `restore_labels` of fix_roundtrip.py: for each caption-keyed index
entry (in dictionary order), skip the `__equation__` sentinel, otherwise
append `\label{name}` after the first occurrence of `\caption{text}`
(`re.sub` with `count=1` on the `re.escape`d caption). -/
def restore_labels (labels : List (Text × Text)) (t : Text) : Text :=
  labels.foldl (fun tx nc =>
    if nc.2 == str "__equation__" then tx
    else
      let capPat := str "\\caption\x7b" ++ nc.2 ++ ['}']
      pyReplaceFirst capPat (capPat ++ str "\\label\x7b" ++ nc.1 ++ ['}']) tx) t

/-- Binary asset contents (a file's bytes). -/
abbrev Content := List Nat

/-- `os.path.basename` for slash-separated paths. -/
def basename (p : Text) : Text := (p.reverse.takeWhile (fun c => c != '/')).reverse

/-- `os.path.dirname` for slash-separated relative paths: the part before
the last slash (empty when there is no slash). -/
def dirname (p : Text) : Text :=
  (((p.reverse.dropWhile (fun c => c != '/')).drop 1)).reverse

/-- Python dict assignment `d[k] = v`: update in place if the key exists,
else append. -/
def dictInsert {α : Type} [DecidableEq α] (k : α) (v : Text) :
    List (α × Text) → List (α × Text)
  | [] => [(k, v)]
  | (k', v') :: rest =>
    if k' = k then (k, v) :: rest else (k', v') :: dictInsert k v rest

/-- Python dict lookup. -/
def dictLookup {α : Type} [DecidableEq α] (k : α) : List (α × Text) → Option Text
  | [] => none
  | (k', v') :: rest => if k' = k then some v' else dictLookup k rest

/-- The build phase of `build_image_mapping`: hash every original image and
map each hash to the image's basename (`original_by_hash[h] = basename`).
The hash function (`md5_file`) is an external library call and is taken as
a parameter. -/
def build_original_by_hash (h : Content → Nat) (origs : List (Text × Content)) :
    List (Nat × Text) :=
  origs.foldl (fun acc pc => dictInsert (h pc.2) (basename pc.1) acc) []

/-- `build_image_mapping` of fix_roundtrip.py: hash every round-tripped
media file and record `mapping[fpath] = original_by_hash[h]` exactly when
the hash has an original; unmatched files are skipped. -/
def build_image_mapping (h : Content → Nat) (origs media : List (Text × Content)) :
    List (Text × Text) :=
  let byHash := build_original_by_hash h origs
  media.foldl (fun acc pc =>
    match dictLookup (h pc.2) byHash with
    | some name => dictInsert pc.1 name acc
    | none => acc) []

/-- The text rewriting of `fix_image_paths`: for each mapping entry,
replace the full generated path unconditionally, then each of the three
progressively shorter suffix variants whenever it occurs in the text.
(The file copies into the output directory are filesystem effects outside
the text transformation.) -/
def fix_image_paths (mapping : List (Text × Text)) (t : Text) : Text :=
  mapping.foldl (fun tx po =>
    let target := str "images/" ++ po.2
    let tx1 := pyReplaceAll po.1 target tx
    let b := basename po.1
    let par := basename (dirname po.1)
    let gp := basename (dirname (dirname po.1))
    let v1 := gp ++ '/' :: par ++ '/' :: b
    let v2 := par ++ '/' :: b
    let tx2 := if containsSub v1 tx1 then pyReplaceAll v1 target tx1 else tx1
    let tx3 := if containsSub v2 tx2 then pyReplaceAll v2 target tx2 else tx2
    if containsSub b tx3 then pyReplaceAll b target tx3 else tx3) t

/-- The Reverse Repair Pipeline: the nine textual corrections applied in
`main`'s order, followed by label restoration and image-path rewriting
(the caption index and image mapping are passed in, as `main` computes
them from the unchanged original sources). -/
def reverse_repair_pipeline (labels mapping : List (Text × Text)) (t : Text) : Text :=
  fix_image_paths mapping
    (restore_labels labels
      (fix_unnumbered_sections
        (fix_list_formatting
          (fix_en_dashes
            (fix_section_hierarchy
              (strip_section_numbers
                (fix_hyperref
                  (fix_inline_math
                    (fix_display_math
                      (remove_toc_section t))))))))))

/-- The caption index used by the C1 and C6 scenarios:
`{"fig:scheme": "Схема"}`. -/
def demoLabels : List (Text × Text) := [(str "fig:scheme", str "Схема")]

/-- The C1 scenario input: a caption line as the round-tripped converter
output contains it (no label attached). -/
def c1Input : Text := str "\\caption\x7bСхема\x7d"

/-! ### preprocess_tex.py: the Forward Normalizer and Listing Transcoder -/

/-- The Cyrillic character class `[а-яА-ЯіІїЇєЄґҐ]`. -/
def isCyr (c : Char) : Bool :=
  (0x430 ≤ c.val && c.val ≤ 0x44f) || (0x410 ≤ c.val && c.val ≤ 0x42f) ||
  c.val == 0x456 || c.val == 0x406 || c.val == 0x457 || c.val == 0x407 ||
  c.val == 0x454 || c.val == 0x404 || c.val == 0x491 || c.val == 0x490

/-- Matcher for `fix_math_text_commands`'s `\\text\{([^}]+)\}` with its
replacement function: Cyrillic-containing content becomes
`\textrm{...}`, other content is re-emitted unchanged (the match is
consumed either way). -/
def tryMathText (t : Text) : Option (Text × Text) :=
  if pref (str "\\text\x7b") t then
    let r := t.drop (str "\\text\x7b").length
    let body := r.takeWhile (fun c => c != '}')
    if body.isEmpty then none
    else
      match r.drop body.length with
      | '}' :: r2 =>
        if body.any isCyr then some (str "\\textrm\x7b" ++ body ++ ['}'], r2)
        else some (str "\\text\x7b" ++ body ++ ['}'], r2)
      | _ => none
  else none

/-- `fix_math_text_commands` of preprocess_tex.py. -/
def fix_math_text_commands (t : Text) : Text := runSub tryMathText t

/-- Matcher for `fix_escaped_underscores_in_math`'s `_\{[^}]*\\_[^}]*\}`
with its replacement `m.group(0).replace('\_', '{\text{-}}')`. -/
def tryEscUnderscore (t : Text) : Option (Text × Text) :=
  match t with
  | '_' :: '{' :: r =>
    let body := r.takeWhile (fun c => c != '}')
    match r.drop body.length with
    | '}' :: r2 =>
      if containsSub (str "\\_") body then
        some ('_' :: '{' :: repl2 '\\' '_' (str "\x7b\\text\x7b-\x7d\x7d") body ++ ['}'], r2)
      else none
    | _ => none
  | _ => none

/-- `fix_escaped_underscores_in_math` of preprocess_tex.py. -/
def fix_escaped_underscores_in_math (t : Text) : Text := runSub tryEscUnderscore t

/-- Matcher for `fix_figure_placement`'s first pattern
`\\begin\{figure\}\{?[Hh]!?\}?`. -/
def tryFigA (t : Text) : Option (Text × Text) :=
  if pref (str "\\begin\x7bfigure\x7d") t then
    let r := t.drop (str "\\begin\x7bfigure\x7d").length
    let r1 := if r.head? == some '{' then r.drop 1 else r
    match r1 with
    | c :: r2 =>
      if c == 'H' || c == 'h' then
        let r3 := if r2.head? == some '!' then r2.drop 1 else r2
        let r4 := if r3.head? == some '}' then r3.drop 1 else r3
        some (str "\\begin\x7bfigure\x7d[htbp]", r4)
      else none
    | [] => none
  else none

/-- Matcher for `fix_figure_placement`'s second pattern
`\\begin\{figure\}\[H!?\]`. -/
def tryFigB (t : Text) : Option (Text × Text) :=
  if pref (str "\\begin\x7bfigure\x7d[H") t then
    let r := t.drop (str "\\begin\x7bfigure\x7d[H").length
    let r1 := if r.head? == some '!' then r.drop 1 else r
    match r1 with
    | ']' :: r2 => some (str "\\begin\x7bfigure\x7d[htbp]", r2)
    | _ => none
  else none

/-- `fix_figure_placement` of preprocess_tex.py (first substitution, then
the `[H]` form). -/
def fix_figure_placement (t : Text) : Text := runSub tryFigB (runSub tryFigA t)

/-- Matcher for `fix_cyrillic_subscripts`'s `([_^])\{([^}]+)\}` with its
replacement function: purely Cyrillic/underscore content not containing
`\text` is wrapped in `\textrm`, other matches re-emitted unchanged. -/
def tryCyrSub (t : Text) : Option (Text × Text) :=
  match t with
  | c :: '{' :: r =>
    if c == '_' || c == '^' then
      let body := r.takeWhile (fun d => d != '}')
      if body.isEmpty then none
      else
        match r.drop body.length with
        | '}' :: r2 =>
          if body.all (fun d => isCyr d || d == '_') && !containsSub (str "\\text") body then
            some (c :: str "\x7b\\textrm\x7b" ++ body ++ str "\x7d\x7d", r2)
          else some (c :: '{' :: body ++ ['}'], r2)
        | _ => none
    else none
  | _ => none

/-- `fix_cyrillic_subscripts` of preprocess_tex.py. -/
def fix_cyrillic_subscripts (t : Text) : Text := runSub tryCyrSub t

/-- `re.search(r'\\label\{([^}]+)\}', line)`: the first label name on a
line (scanning resumes one character later when a `\label{` head is not
followed by a properly closed non-empty name). -/
def findLabelName : Text → Option Text
  | [] => none
  | c :: rest =>
    if pref (str "\\label\x7b") (c :: rest) then
      let r := (c :: rest).drop (str "\\label\x7b").length
      let body := r.takeWhile (fun d => d != '}')
      if !body.isEmpty && (r.drop body.length).head? == some '}' then some body
      else findLabelName rest
    else findLabelName rest

/-- The literal text `\label{name}`. -/
def labelPat (name : Text) : Text := str "\\label\x7b" ++ name ++ ['}']

/-- One line of `fix_duplicate_labels`: if the line's first label was seen
before, every occurrence of that exact label on the line is replaced by
the commented form; otherwise the name is recorded. -/
def dupLine (seen : List Text) (l : Text) : Text × List Text :=
  match findLabelName l with
  | none => (l, seen)
  | some name =>
    if name ∈ seen then
      (pyReplaceAll (labelPat name) (str "% duplicate: " ++ labelPat name) l, seen)
    else (l, name :: seen)

/-- The line fold of `fix_duplicate_labels`. -/
def dupGo (seen : List Text) : List Text → List Text
  | [] => []
  | l :: ls =>
    let pr := dupLine seen l
    pr.1 :: dupGo pr.2 ls

/-- `fix_duplicate_labels` of preprocess_tex.py. -/
def fix_duplicate_labels (t : Text) : Text := joinLines (dupGo [] (splitLines t))

/-- Parse `k` whitespace-preceded `{[^}]*\}` brace groups (the argument
shape of `\titleformat`). -/
def parseBraceGroups : Nat → Text → Option Text
  | 0, t => some t
  | k + 1, t =>
    match t.dropWhile pySpace with
    | '{' :: r =>
      let body := r.takeWhile (fun d => d != '}')
      match r.drop body.length with
      | '}' :: r2 => parseBraceGroups k r2
      | _ => none
    | _ => none

/-- Matcher for `strip_titleformat`'s
`\\titleformat\s*\{[^}]*\}\s*\{[^}]*\}\s*\{[^}]*\}\s*\{[^}]*\}\s*\{[^}]*\}`. -/
def tryTitleformat (t : Text) : Option (Text × Text) :=
  if pref (str "\\titleformat") t then
    (parseBraceGroups 5 (t.drop (str "\\titleformat").length)).map (fun r => ([], r))
  else none

/-- `strip_titleformat` of preprocess_tex.py. -/
def strip_titleformat (t : Text) : Text := runSub tryTitleformat t

/-- Matcher for `\\begin\{titlepage\}.*?\\end\{titlepage\}` (DOTALL). -/
def tryTitlepageEnv (t : Text) : Option (Text × Text) :=
  if pref (str "\\begin\x7btitlepage\x7d") t then
    (splitOnceStr (str "\\end\x7btitlepage\x7d")
        (t.drop (str "\\begin\x7btitlepage\x7d").length)).map (fun pr => ([], pr.2))
  else none

/-- Matcher for `lit.*` (no DOTALL): delete the literal and the rest of
its line. -/
def tryLineTail (lit : Text) (t : Text) : Option (Text × Text) :=
  if pref lit t then some ([], (t.drop lit.length).dropWhile (fun c => c != '\n'))
  else none

/-- Matcher for `\\setcounter\{page\}\{.*?\}`. -/
def trySetcounterPage (t : Text) : Option (Text × Text) :=
  if pref (str "\\setcounter\x7bpage\x7d\x7b") t then
    let r := t.drop (str "\\setcounter\x7bpage\x7d\x7b").length
    let body := r.takeWhile (fun c => c != '}' && c != '\n')
    match r.drop body.length with
    | '}' :: r2 => some ([], r2)
    | _ => none
  else none

/-- `strip_titlepage_content` of preprocess_tex.py: the eight deletions in
source order. -/
def strip_titlepage_content (t : Text) : Text :=
  pyReplaceAll (str "\\newpage") []
    (pyReplaceAll (str "\\thispagestyle\x7bempty\x7d") []
      (runSub trySetcounterPage
        (runSub (tryLineTail (str "\\renewcommand\x7b\\contentsname\x7d"))
          (runSub (tryLineTail (str "\\renewcommand\x7b\\cftaftertoctitle\x7d"))
            (runSub (tryLineTail (str "\\renewcommand\x7b\\cfttoctitlefont\x7d"))
              (pyReplaceAll (str "\\tableofcontents") []
                (runSub tryTitlepageEnv t)))))))

/-- Position matcher for `\\subsubsection\*?\{(\d+)\.` (the chapter-number
pattern of `convert_lstlisting_for_pandoc`). -/
def tryChapter (t : Text) : Option Nat :=
  if pref (str "\\subsubsection") t then
    let t1 := t.drop (str "\\subsubsection").length
    let t2 := if t1.head? == some '*' then t1.drop 1 else t1
    match t2 with
    | '{' :: r =>
      let ds := r.takeWhile pyDigit
      if !ds.isEmpty && (r.drop ds.length).head? == some '.' then some (digitsToNat ds)
      else none
    | _ => none
  else none

/-- `re.search` for the chapter-number pattern: first match in the file. -/
def chapterScan : Text → Option Nat
  | [] => none
  | c :: rest =>
    match tryChapter (c :: rest) with
    | some n => some n
    | none => chapterScan rest

/-- The chapter number of a file: the first heading-number match anywhere
in the content, defaulting to 0 (`int(...) if chapter_match else 0`). -/
def chapterOf (content : Text) : Nat := (chapterScan content).getD 0

/-- The non-greedy caption group `(.+?)` up to `\}\]` (DOTALL): at least
one character, stopping at the first possible `}]`. -/
def capScan : Text → Option (Text × Text)
  | [] => none
  | c :: rest =>
    if pref (str "\x7d]") rest then some ([c], rest.drop 2)
    else (capScan rest).map (fun pr => (c :: pr.1, pr.2))

/-- The literal head `\begin{lstlisting}[caption={`. -/
def lstBegin : Text := str "\\begin\x7blstlisting\x7d[caption=\x7b"

/-- The literal `\end{lstlisting}`. -/
def lstEnd : Text := str "\\end\x7blstlisting\x7d"

/-- Leftmost match of
`\\begin\{lstlisting\}\[caption=\{(.+?)\}\]\s*(.*?)\\end\{lstlisting\}`
(DOTALL): the text before the match, the caption group, the code group
(after the greedy `\s*`) and the text after the match.  When any required
part is missing after the first `}]`, no later start position can match
either, so the whole search fails. -/
def findLst (t : Text) : Option (Text × Text × Text × Text) :=
  match splitOnceStr lstBegin t with
  | none => none
  | some (pre, r1) =>
    match capScan r1 with
    | none => none
    | some (cap, r2) =>
      match splitOnceStr lstEnd (r2.dropWhile pySpace) with
      | none => none
      | some (code, rest) => some (pre, cap, code, rest)

/-- The centred caption line emitted for listing `ch.cnt`. -/
def lstCapLine (ch cnt : Nat) (cap : Text) : Text :=
  str "\\begin\x7bcenter\x7d\n\\textbf\x7bЛістинг " ++ natDigits ch ++
    '.' :: natDigits cnt ++ str " --- " ++ cap ++ str "\x7d\n\\end\x7bcenter\x7d\n"

/-- The substitution loop of `convert_lstlisting_for_pandoc`: each match
unescapes its caption, increments the (function-modelled) counter for the
file's chapter and emits the caption line plus a verbatim block. -/
def lstGo (ch : Nat) : Nat → (Nat → Nat) → Text → Text × (Nat → Nat)
  | 0, ctr, t => (t, ctr)
  | n + 1, ctr, t =>
    match findLst t with
    | none => (t, ctr)
    | some (pre, cap, code, rest) =>
      let cnt := ctr ch + 1
      let ctr2 := fun k => if k = ch then cnt else ctr k
      let pr := lstGo ch n ctr2 rest
      (pre ++ lstCapLine ch cnt (unescape_caption cap) ++
        str "\\begin\x7bverbatim\x7d" ++ code ++ str "\\end\x7bverbatim\x7d" ++ pr.1, pr.2)

/-- `convert_lstlisting_for_pandoc` of preprocess_tex.py.  The chapter
number is computed once from the whole file content. -/
def convert_lstlisting_for_pandoc (content : Text) (ctr : Nat → Nat) :
    Text × (Nat → Nat) :=
  lstGo (chapterOf content) content.length ctr content

/-- The number of lstlisting matches the substitution loop replaces. -/
def countLstGo : Nat → Text → Nat
  | 0, _ => 0
  | n + 1, t =>
    match findLst t with
    | none => 0
    | some (_, _, _, rest) => countLstGo n rest + 1

/-- The number of listings converted in a file. -/
def countListings (content : Text) : Nat := countLstGo content.length content

/-- `preprocess_file` of preprocess_tex.py: the titlepage strip for the
file named `titlepage.tex`, the six content fixes in source order, then
the listing conversion threading the shared counter. -/
def preprocess_file (fname content : Text) (ctr : Nat → Nat) : Text × (Nat → Nat) :=
  let c0 := if basename fname == str "titlepage.tex"
            then strip_titlepage_content content else content
  let c1 := fix_figure_placement c0
  let c2 := fix_escaped_underscores_in_math c1
  let c3 := fix_math_text_commands c2
  let c4 := fix_cyrillic_subscripts c3
  let c5 := fix_duplicate_labels c4
  let c6 := strip_titleformat c5
  convert_lstlisting_for_pandoc c6 ctr

/-- Python string comparison (code-point lexicographic), for
`sorted(files)`. -/
def pathLe : Text → Text → Bool
  | [], _ => true
  | _ :: _, [] => false
  | a :: as, b :: bs => if a = b then pathLe as bs else decide (a.val < b.val)

/-- Insertion step of a stable sort by path. -/
def insertSorted (x : Text × Text) : List (Text × Text) → List (Text × Text)
  | [] => [x]
  | y :: ys => if pathLe x.1 y.1 then x :: y :: ys else y :: insertSorted x ys

/-- Stable sort of `(path, content)` pairs by path (`sorted(files)`). -/
def sortByPath (l : List (Text × Text)) : List (Text × Text) :=
  l.foldr insertSorted []

/-- The per-file fold of `preprocess_project`: one shared counter threads
through all files in order. -/
def projGo : List (Text × Text) → (Nat → Nat) → List (Text × Text) × (Nat → Nat)
  | [], ctr => ([], ctr)
  | f :: rest, ctr =>
    let pr := preprocess_file f.1 f.2 ctr
    let prs := projGo rest pr.2
    ((f.1, pr.1) :: prs.1, prs.2)

/-- `preprocess_project` of preprocess_tex.py:
`for root, dirs, files in os.walk(src_dir): for fname in sorted(files)`.
`os.walk` yields the root directory first and then each subdirectory in
the filesystem's scandir order, which the code never sorts; only the file
names within each directory are sorted.  The walk's directory sequence is
filesystem behaviour outside the program, so it is the parameter: each
element is one directory's `(path, content)` pairs in scandir order.  The
shared counter starts empty (`listing_counter = {}`) and threads through
every file of every directory. -/
def preprocess_project (dirs : List (List (Text × Text))) :
    List (Text × Text) × (Nat → Nat) :=
  projGo (dirs.map sortByPath).flatten (fun _ => 0)

/-- The C3 scenario: three files, each holding one eligible tagged listing
under chapter 2, given in non-sorted order. -/
def c3Demo : List (Text × Text) :=
  [(str "b.tex",
    str "\\subsubsection*\x7b2.2. Другий\x7d\n\\begin\x7blstlisting\x7d[caption=\x7bc\x7d]\ncode\n\\end\x7blstlisting\x7d\n"),
   (str "a.tex",
    str "\\subsubsection*\x7b2.1. Перший\x7d\n\\begin\x7blstlisting\x7d[caption=\x7bc\x7d]\ncode\n\\end\x7blstlisting\x7d\n"),
   (str "c.tex",
    str "\\subsubsection*\x7b2.3. Третій\x7d\n\\begin\x7blstlisting\x7d[caption=\x7bc\x7d]\ncode\n\\end\x7blstlisting\x7d\n")]

/-- The C3 counterexample walk: the root directory holds `z.tex`, a
subdirectory holds `a/b.tex`; `os.walk` visits the root first, so
`z.tex` is processed before `a/b.tex` although `a/b.tex` precedes it in
path order.  Each file holds one eligible chapter-2 listing. -/
def c3WalkDemo : List (List (Text × Text)) :=
  [[(str "z.tex",
    str "\\subsubsection*\x7b2.9. Zед\x7d\n\\begin\x7blstlisting\x7d[caption=\x7bc\x7d]\ncode\n\\end\x7blstlisting\x7d\n")],
   [(str "a/b.tex",
    str "\\subsubsection*\x7b2.8. Бе\x7d\n\\begin\x7blstlisting\x7d[caption=\x7bc\x7d]\ncode\n\\end\x7blstlisting\x7d\n")]]

/-- The C4 counterexample input: a tagged listing with the only
heading-number pattern occurring after it. -/
def c4Input : Text :=
  str "\\begin\x7blstlisting\x7d[caption=\x7bc\x7d]x\\end\x7blstlisting\x7d\\subsubsection*\x7b3.1. T\x7d"

/-- The C4 amended-claim input: two heading numbers (3, then 4) both
preceding the listing; the code uses the first of the file, not the
nearest preceding one. -/
def c4Two : Text :=
  str "\\subsubsection*\x7b3.1. A\x7d\n\\subsubsection*\x7b4.1. B\x7d\n\\begin\x7blstlisting\x7d[caption=\x7bc\x7d]x\\end\x7blstlisting\x7d"

/-- The C7 counterexample input: line 1 carries two labels `a`, `b`;
line 2 repeats `b`. -/
def c7Input : Text := str "\\label\x7ba\x7d\\label\x7bb\x7d\n\\label\x7bb\x7d"

/-! ### convert_to_listings.py: caption derivation and `process_file` -/

/-- The non-greedy `(.+?)\}` content group (no DOTALL): at least one
non-newline character, up to the nearest possible closing brace. -/
def tryContentToBrace : Text → Option (Text × Text)
  | [] => none
  | c :: rest =>
    if c == '\n' then none
    else if rest.head? == some '}' then some ([c], rest.drop 1)
    else (tryContentToBrace rest).map (fun pr => (c :: pr.1, pr.2))

/-- The `[\d.]*\s*(.+?)\}` tail of the caption heading pattern, with the
greedy backtracking of the two starred classes: longer digit-dot prefixes
are tried first, then longer whitespace runs, then the non-greedy
content. -/
def trySubsubTail (t : Text) : Option (Text × Text) :=
  descTry (fun aLen =>
    let t1 := t.drop aLen
    descTry (fun bLen => tryContentToBrace (t1.drop bLen))
      (t1.takeWhile pySpace).length)
    (t.takeWhile (fun c => pyDigit c || c == '.')).length

/-- Position matcher for `\\subsubsection\*?\{[\d.]*\s*(.+?)\}`
(`get_caption`'s heading pattern). -/
def trySubsubCap (t : Text) : Option (Text × Text) :=
  if pref (str "\\subsubsection") t then
    let t1 := t.drop (str "\\subsubsection").length
    let t2 := if t1.head? == some '*' then t1.drop 1 else t1
    match t2 with
    | '{' :: r => trySubsubTail r
    | _ => none
  else none

/-- Position matcher for `\\textbf\{(.+?)\}` (`get_caption`'s fallback). -/
def tryTextbfCap (t : Text) : Option (Text × Text) :=
  if pref (str "\\textbf\x7b") t then
    tryContentToBrace (t.drop (str "\\textbf\x7b").length)
  else none

/-- `re.findall(...)[-1]`: the capture of the last (leftmost,
non-overlapping) match of a position matcher. -/
def lastMatchGo (f : Text → Option (Text × Text)) :
    Nat → Option Text → Text → Option Text
  | 0, acc, _ => acc
  | _ + 1, acc, [] => acc
  | n + 1, acc, c :: rest =>
    match f (c :: rest) with
    | some pr => lastMatchGo f n (some pr.1) pr.2
    | none => lastMatchGo f n acc rest

/-- The last match capture over a whole text. -/
def lastMatch (f : Text → Option (Text × Text)) (t : Text) : Option Text :=
  lastMatchGo f t.length none t

/-- `get_caption` of convert_to_listings.py: the most recent
`\subsubsection` title, else the most recent `\textbf` within the last
500 characters (stripped of trailing dots), else the fixed placeholder. -/
def get_caption (before : Text) : Text :=
  match lastMatch trySubsubCap before with
  | some cap => pyStrip cap
  | none =>
    match lastMatch tryTextbfCap (before.drop (before.length - 500)) with
    | some cap => ((pyStrip cap).reverse.dropWhile (fun c => c == '.')).reverse
    | none => str "Фрагмент програмного коду"

/-- The literal `\begin{verbatim}`. -/
def vbBegin : Text := str "\\begin\x7bverbatim\x7d"

/-- The literal `\end{verbatim}`. -/
def vbEnd : Text := str "\\end\x7bverbatim\x7d"

/-- Leftmost match of `\\begin\{verbatim\}(.*?)\\end\{verbatim\}`
(DOTALL, non-greedy): the text before the match, the code group, and the
text after.  If no end tag follows the first begin tag, none follows any
later one, so the search fails outright. -/
def findVerbatim (t : Text) : Option (Text × Text × Text) :=
  match splitOnceStr vbBegin t with
  | none => none
  | some (pre, r1) =>
    match splitOnceStr vbEnd r1 with
    | none => none
    | some (code, rest) => some (pre, code, rest)

/-- One parsed segment of a file: plain text between verbatim blocks, or a
verbatim block together with the full original text preceding it (the
`content[:m.start()]` that `get_caption` receives). -/
inductive VSeg : Type where
  | txt : Text → VSeg
  | blk : Text → Text → VSeg

/-- A segment as it appeared in the input. -/
def segOrig : VSeg → Text
  | VSeg.txt s => s
  | VSeg.blk _ code => vbBegin ++ code ++ vbEnd

/-- The converted form of an accepted block:
`\begin{lstlisting}[caption={...}]` + `code.rstrip()` +
`\n\end{lstlisting}`. -/
def lstRender (pre code : Text) : Text :=
  str "\\begin\x7blstlisting\x7d[caption=\x7b" ++ escape_caption (get_caption pre) ++
    str "\x7d]" ++ pyRstrip code ++ '\n' :: lstEnd

/-- A segment as `process_file` emits it. -/
def segRender : VSeg → Text
  | VSeg.txt s => s
  | VSeg.blk pre code =>
    if acceptBlock code then lstRender pre code else vbBegin ++ code ++ vbEnd

/-- Whether a segment is an accepted (converted) block. -/
def segAccepted : VSeg → Bool
  | VSeg.txt _ => false
  | VSeg.blk _ code => acceptBlock code

/-- The segment decomposition driven by `pattern.finditer`: `acc` is the
original text already consumed (so block segments carry their original
prefix). -/
def scanVerbGo : Nat → Text → Text → List VSeg
  | 0, _, t => [VSeg.txt t]
  | n + 1, acc, t =>
    match findVerbatim t with
    | none => [VSeg.txt t]
    | some (pre, code, rest) =>
      VSeg.txt pre :: VSeg.blk (acc ++ pre) code ::
        scanVerbGo n (acc ++ pre ++ vbBegin ++ code ++ vbEnd) rest

/-- The segments of a file. -/
def scanVerbatim (t : Text) : List VSeg := scanVerbGo t.length [] t

/-- The `parts` loop of `process_file`: emit the text before each match,
then the block converted or re-emitted verbatim; count conversions.  The
file is rewritten only when the count is positive. -/
def processVerbGo : Nat → Text → Text → Text × Nat
  | 0, _, t => (t, 0)
  | n + 1, acc, t =>
    match findVerbatim t with
    | none => (t, 0)
    | some (pre, code, rest) =>
      let rendered := if acceptBlock code then lstRender (acc ++ pre) code
                      else vbBegin ++ code ++ vbEnd
      let pr := processVerbGo n (acc ++ pre ++ vbBegin ++ code ++ vbEnd) rest
      (pre ++ rendered ++ pr.1, pr.2 + (if acceptBlock code then 1 else 0))

/-- `process_file` of convert_to_listings.py as a text transformation:
the rewritten content and the number of converted blocks. -/
def process_file (t : Text) : Text × Nat := processVerbGo t.length [] t

/-- Concatenation of a list of texts (`''.join(parts)`). -/
def concatTexts : List Text → Text
  | [] => []
  | t :: ts => t ++ concatTexts ts

/-! ### Inputs for the C5 witness -/

/-- A simple concrete content hash standing in for `md5_file` in the C5
witness (the C5 theorem itself is proved for every hash function). -/
def c5Hash (c : Content) : Nat := c.foldl (· + 10 * ·) 7

/-- Original assets for the C5 witness. -/
def c5Origs : List (Text × Content) :=
  [(str "src/scheme.png", [1, 2, 3]), (str "src/plot.png", [7])]

/-- Round-tripped assets for the C5 witness: the first is byte-identical
to `scheme.png` under an opaque name, the second matches nothing. -/
def c5Media : List (Text × Content) :=
  [(str "media/media/rId9.png", [1, 2, 3]), (str "media/media/rId10.png", [9, 9])]

end Texbridge

namespace Texbridge

/-! ### Lemmas and theorem for C8 -/

theorem escL_nil (s : Text) : escL [] s = s := by
  induction s with
  | nil => rfl
  | cons c rest ih => simp [escL, encOne, ih]

theorem escL_congr {sp₁ sp₂ : List Char} (h : ∀ x, x ∈ sp₁ ↔ x ∈ sp₂) (s : Text) :
    escL sp₁ s = escL sp₂ s := by
  induction s with
  | nil => rfl
  | cons c rest ih =>
    simp only [escL, ih, encOne]
    by_cases hc : c ∈ sp₁
    · rw [if_pos hc, if_pos ((h c).mp hc)]
    · rw [if_neg hc, if_neg (fun hx => hc ((h c).mpr hx))]

theorem replChar_append (c : Char) (rep xs ys : Text) :
    replChar c rep (xs ++ ys) = replChar c rep xs ++ replChar c rep ys := by
  induction xs with
  | nil => rfl
  | cons x rest ih => simp [replChar, ih]

theorem replChar_escL {c : Char} {sp : List Char} (hc : c ≠ '\\') (hsp : c ∉ sp)
    (s : Text) : replChar c ['\\', c] (escL sp s) = escL (c :: sp) s := by
  induction s with
  | nil => rfl
  | cons d rest ih =>
    simp only [escL, replChar_append, ih, encOne]
    by_cases hd : d ∈ sp
    · have hdc : d ≠ c := fun h => hsp (h ▸ hd)
      have h1 : ('\\' == c) = false := by
        simp [beq_iff_eq]
        exact fun h => hc h.symm
      have h2 : (d == c) = false := by simp [beq_iff_eq, hdc]
      simp [replChar, h1, h2, if_pos hd, List.mem_cons, hd]
    · by_cases hdc : d = c
      · subst hdc
        simp [replChar, List.mem_cons, hd]
      · have h2 : (d == c) = false := by simp [beq_iff_eq, hdc]
        simp [replChar, h2, if_neg hd, List.mem_cons, hdc, hd]

theorem repl2_cons_ne {a b x : Char} {rep t : Text} (hx : x ≠ a) :
    repl2 a b rep (x :: t) = x :: repl2 a b rep t := by
  have hxa : (x == a) = false := by simp [beq_iff_eq, hx]
  cases t with
  | nil => rfl
  | cons y rest => simp [repl2, hxa]

theorem repl2_cons_skip {a b x y : Char} {rep t : Text} (h : y ≠ b) :
    repl2 a b rep (x :: y :: t) = x :: repl2 a b rep (y :: t) := by
  have hyb : (y == b) = false := by simp [beq_iff_eq, h]
  simp [repl2, hyb]

theorem repl2_cons_match {a b : Char} {rep t : Text} :
    repl2 a b rep (a :: b :: t) = rep ++ repl2 a b rep t := by
  simp [repl2]

theorem escL_head_ne {c y : Char} {sp : List Char} {rest ys : Text}
    (hc : c ≠ '\\') (h : escL (c :: sp) rest = y :: ys) : y ≠ c := by
  cases rest with
  | nil => simp [escL] at h
  | cons e r2 =>
    simp only [escL, encOne] at h
    by_cases he : e ∈ c :: sp
    · rw [if_pos he] at h
      simp only [List.cons_append, List.nil_append] at h
      injection h with h1 _
      intro hh
      apply hc
      rw [← hh]
      exact h1.symm
    · rw [if_neg he] at h
      simp only [List.cons_append, List.nil_append] at h
      injection h with h1 _
      rw [← h1]
      intro hh
      apply he
      rw [hh]
      exact List.mem_cons_self c sp

theorem repl2_unesc {c : Char} {sp : List Char} (hc : c ≠ '\\')
    (hsp : '\\' ∉ sp) (hcsp : c ∉ sp) (s : Text) :
    repl2 '\\' c [c] (escL (c :: sp) s) = escL sp s := by
  induction s with
  | nil => rfl
  | cons d rest ih =>
    by_cases hdc : d = c
    · subst hdc
      have henc : encOne (d :: sp) d = ['\\', d] := by simp [encOne]
      have henc2 : encOne sp d = [d] := by simp [encOne, hcsp]
      simp only [escL, henc, henc2, List.cons_append, List.nil_append]
      rw [repl2_cons_match, ih]
      rfl
    · by_cases hdm : d ∈ sp
      · have hdb : d ≠ '\\' := fun h => hsp (h ▸ hdm)
        have henc : encOne (c :: sp) d = ['\\', d] := by
          simp [encOne, List.mem_cons, hdm]
        have henc2 : encOne sp d = ['\\', d] := by simp [encOne, hdm]
        simp only [escL, henc, henc2, List.cons_append, List.nil_append]
        rw [repl2_cons_skip hdc, repl2_cons_ne hdb, ih]
      · have henc : encOne (c :: sp) d = [d] := by
          simp [encOne, List.mem_cons, hdc, hdm]
        have henc2 : encOne sp d = [d] := by simp [encOne, hdm]
        simp only [escL, henc, henc2, List.cons_append, List.nil_append]
        by_cases hdb : d = '\\'
        · subst hdb
          have step : repl2 '\\' c [c] ('\\' :: escL (c :: sp) rest) =
              '\\' :: repl2 '\\' c [c] (escL (c :: sp) rest) := by
            cases hrest : escL (c :: sp) rest with
            | nil => simp [repl2]
            | cons y ys => exact repl2_cons_skip (escL_head_ne hc hrest)
          rw [step, ih]
        · rw [repl2_cons_ne hdb, ih]

/-- Claim C8: escaping a caption for the intermediate format's special
characters (`_`, `#`, `&`, `%` each becoming its backslash-escaped form)
and then unescaping it with the reverse replacements of
`replace_listing` restores the original caption text, for every caption. -/
theorem c8_caption_roundtrip (s : Text) :
    unescape_caption (escape_caption s) = s := by
  have e1 : replChar '_' ['\\', '_'] s = escL ['_'] s := by
    conv_lhs => rw [show s = escL [] s from (escL_nil s).symm]
    exact replChar_escL (by decide) (by decide) s
  have e2 : replChar '#' ['\\', '#'] (escL ['_'] s) = escL ['#', '_'] s :=
    replChar_escL (by decide) (by decide) s
  have e3 : replChar '&' ['\\', '&'] (escL ['#', '_'] s) = escL ['&', '#', '_'] s :=
    replChar_escL (by decide) (by decide) s
  have e4 : replChar '%' ['\\', '%'] (escL ['&', '#', '_'] s) = escL ['%', '&', '#', '_'] s :=
    replChar_escL (by decide) (by decide) s
  have hesc : escape_caption s = escL ['%', '&', '#', '_'] s := by
    unfold escape_caption
    rw [show (str "\\_") = ['\\', '_'] from rfl, show (str "\\#") = ['\\', '#'] from rfl,
      show (str "\\&") = ['\\', '&'] from rfl, show (str "\\%") = ['\\', '%'] from rfl,
      e1, e2, e3, e4]
  have hperm : escL ['%', '&', '#', '_'] s = escL ['_', '#', '&', '%'] s := by
    refine escL_congr (fun x => ?_) s
    simp only [List.mem_cons, List.not_mem_nil, or_false]
    tauto
  unfold unescape_caption
  rw [hesc, hperm]
  rw [show (str "_") = ['_'] from rfl, repl2_unesc (by decide) (by decide) (by decide)]
  rw [show (str "#") = ['#'] from rfl, repl2_unesc (by decide) (by decide) (by decide)]
  rw [show (str "&") = ['&'] from rfl, repl2_unesc (by decide) (by decide) (by decide)]
  rw [show (str "%") = ['%'] from rfl, repl2_unesc (by decide) (by decide) (by decide)]
  exact escL_nil s

/-! ### Theorems for C1, C6, C9 -/

/-- Claim C1 (code bug): the Reverse Repair Pipeline is not idempotent.
With the caption index entry `{"fig:scheme": "Схема"}` and the input
`\caption{Схема}`, one application appends the restored label, but a
second application appends the label again (the `restore_labels` pattern
matches the caption regardless of an already attached label, contradicting
its own comment "Find caption without a label and add one"), so running
the pipeline twice differs from running it once. -/
theorem c1_pipeline_not_idempotent :
    reverse_repair_pipeline demoLabels [] c1Input =
      str "\\caption\x7bСхема\x7d\\label\x7bfig:scheme\x7d" ∧
    reverse_repair_pipeline demoLabels [] (reverse_repair_pipeline demoLabels [] c1Input) =
      str "\\caption\x7bСхема\x7d\\label\x7bfig:scheme\x7d\\label\x7bfig:scheme\x7d" ∧
    reverse_repair_pipeline demoLabels [] (reverse_repair_pipeline demoLabels [] c1Input) ≠
      reverse_repair_pipeline demoLabels [] c1Input := by
  refine ⟨by decide, by decide, by decide⟩

/-- Claim C6 (code bug): the Anchor Restorer does not skip caption
occurrences that already carry a trailing anchor.  On a text whose caption
`Схема` is already followed by `\label{fig:scheme}`, `restore_labels` with
the index entry `{"fig:scheme": "Схема"}` appends the label again right
after the caption, creating a duplicate, instead of leaving the text
unchanged. -/
theorem c6_restore_labels_ignores_existing_anchor :
    restore_labels demoLabels
        (str "\\caption\x7bСхема\x7d\\label\x7bfig:scheme\x7d") =
      str "\\caption\x7bСхема\x7d\\label\x7bfig:scheme\x7d\\label\x7bfig:scheme\x7d" ∧
    restore_labels demoLabels
        (str "\\caption\x7bСхема\x7d\\label\x7bfig:scheme\x7d") ≠
      str "\\caption\x7bСхема\x7d\\label\x7bfig:scheme\x7d" := by
  refine ⟨by decide, by decide⟩

/-- Claim C9 counterexample: `strip_section_numbers` leaves
`\section{2.3 Методи}` unchanged (the `\section` rule only strips a
single-number prefix `N␣`, and `2.3` is not followed by whitespace after
its digits), so the heading does not become `\section{Методи}`. -/
theorem c9_counterexample_section_two_part_number :
    strip_section_numbers (str "\\section\x7b2.3 Методи\x7d") =
      str "\\section\x7b2.3 Методи\x7d" ∧
    strip_section_numbers (str "\\section\x7b2.3 Методи\x7d") ≠
      str "\\section\x7bМетоди\x7d" := by
  refine ⟨by decide, by decide⟩

/-- Claim C9 as amended: numeric prefixes are stripped at each of the
three heading depths, but each depth only strips the number shape baked in
at that depth: `\section{N␣}`, `\subsection{N.N␣}`,
`\subsubsection{N.N.N.}`; a two-part number at `\section` depth is left
unchanged. -/
theorem c9_amended_depth_specific_prefixes :
    strip_section_numbers (str "\\section\x7b2 Методи\x7d") =
      str "\\section\x7bМетоди\x7d" ∧
    strip_section_numbers (str "\\subsection\x7b2.3 Методи\x7d") =
      str "\\subsection\x7bМетоди\x7d" ∧
    strip_section_numbers (str "\\subsubsection\x7b2.3.1. Методи\x7d") =
      str "\\subsubsection\x7bМетоди\x7d" ∧
    strip_section_numbers (str "\\section\x7b2.3 Методи\x7d") =
      str "\\section\x7b2.3 Методи\x7d" := by
  refine ⟨by decide, by decide, by decide, by decide⟩

/-! ### Lemmas and theorems for C3 and C4 -/

theorem lstGo_counter (ch : Nat) :
    ∀ (n : Nat) (ctr : Nat → Nat) (t : Text) (k : Nat),
      (lstGo ch n ctr t).2 k = ctr k + (if k = ch then countLstGo n t else 0) := by
  intro n
  induction n with
  | zero => intro ctr t k; simp [lstGo, countLstGo]
  | succ m ih =>
    intro ctr t k
    cases hf : findLst t with
    | none => simp [lstGo, countLstGo, hf]
    | some q =>
      obtain ⟨pre, cap, code, rest⟩ := q
      simp only [lstGo, countLstGo, hf]
      rw [ih]
      by_cases hk : k = ch
      · simp [hk]
        omega
      · simp [hk]

theorem convert_counter (content : Text) (ctr : Nat → Nat) (k : Nat) :
    (convert_lstlisting_for_pandoc content ctr).2 k =
      ctr k + (if k = chapterOf content then countListings content else 0) :=
  lstGo_counter (chapterOf content) content.length ctr content k

theorem preprocess_file_counter (p c : Text) (ctr : Nat → Nat) (k : Nat) :
    ctr k ≤ (preprocess_file p c ctr).2 k := by
  unfold preprocess_file
  rw [convert_counter]
  omega

theorem projGo_mono : ∀ (files : List (Text × Text)) (ctr : Nat → Nat) (k : Nat),
    ctr k ≤ (projGo files ctr).2 k := by
  intro files
  induction files with
  | nil => intro ctr k; simp [projGo]
  | cons f rest ih =>
    intro ctr k
    simp only [projGo]
    exact le_trans (preprocess_file_counter f.1 f.2 ctr k) (ih _ k)

/-- Claim C3 counterexample: files are NOT processed in globally sorted
path order.  With `z.tex` in the root directory and `a/b.tex` in a
subdirectory, `os.walk` yields the root first, so the invocation
processes `z.tex` before `a/b.tex` and `z.tex` receives the listing
number 2.1 — although `a/b.tex` strictly precedes `z.tex` in path order
and, under the claimed sorted order, would receive 2.1 itself. -/
theorem c3_counterexample_walk_order_not_sorted :
    ((preprocess_project c3WalkDemo).1.map (fun pc =>
        (pc.1, containsSub (str "Лістинг 2.1") pc.2,
          containsSub (str "Лістинг 2.2") pc.2)) =
      [(str "z.tex", true, false), (str "a/b.tex", false, true)]) ∧
    pathLe (str "a/b.tex") (str "z.tex") = true ∧
    str "a/b.tex" ≠ str "z.tex" := by
  exact ⟨by decide, by decide, by decide⟩

/-- Claim C3 as amended: the Listing Counter State is one mapping shared
across all files of an invocation; files are processed in `os.walk`
order — the names within each directory sorted, directories in the
walk's (unsorted) traversal order, not a global sorted path order.
The map is mutated monotonically: converting one file adds exactly its
number of accepted listings to exactly its own chapter's count and
changes no other chapter (so each accepted listing increments exactly
one chapter's count by 1 and no count is ever reset), the counter never
decreases across the per-file fold, and feeding three eligible blocks
under chapter 2 in one directory (given unsorted, processed as a.tex,
b.tex, c.tex) yields the listing numbers 2.1, 2.2, 2.3 and a final
count of 3 for chapter 2. -/
theorem c3_amended_shared_counter_walk_order :
    (∀ (content : Text) (ctr : Nat → Nat) (k : Nat),
      (convert_lstlisting_for_pandoc content ctr).2 k =
        ctr k + (if k = chapterOf content then countListings content else 0)) ∧
    (∀ (files : List (Text × Text)) (ctr : Nat → Nat) (k : Nat),
      ctr k ≤ (projGo files ctr).2 k) ∧
    ((preprocess_project [c3Demo]).1.map (fun pc =>
        (pc.1, containsSub (str "Лістинг 2.1") pc.2,
          containsSub (str "Лістинг 2.2") pc.2,
          containsSub (str "Лістинг 2.3") pc.2)) =
      [(str "a.tex", true, false, false), (str "b.tex", false, true, false),
        (str "c.tex", false, false, true)]) ∧
    (preprocess_project [c3Demo]).2 2 = 3 := by
  exact ⟨convert_counter, projGo_mono, by decide, by decide⟩

/-- Claim C4 counterexample: in `convert_lstlisting_for_pandoc`, a tagged
listing that no heading-number pattern precedes is NOT numbered with
chapter 0 when a heading occurs later in the file: on `c4Input` (listing
first, `\subsubsection*{3.1. T}` after it) the emitted number is 3.1, not
0.x, because the chapter is taken from the first pattern match anywhere in
the file. -/
theorem c4_counterexample_not_backward_scan :
    containsSub (str "Лістинг 3.1")
      (convert_lstlisting_for_pandoc c4Input (fun _ => 0)).1 = true ∧
    containsSub (str "Лістинг 0.")
      (convert_lstlisting_for_pandoc c4Input (fun _ => 0)).1 = false := by
  exact ⟨by decide, by decide⟩

/-- Claim C4 as amended: the chapter number of every tagged listing in a
file is parsed from the first heading-numbering pattern occurring anywhere
in the file content (not the nearest preceding one), defaulting to 0 when
the file has none: with headings 3.1 then 4.1 both before the listing the
number is 3.1, and with no heading at all it is 0.1. -/
theorem c4_amended_first_heading_of_file :
    containsSub (str "Лістинг 3.1")
      (convert_lstlisting_for_pandoc c4Two (fun _ => 0)).1 = true ∧
    containsSub (str "Лістинг 4.")
      (convert_lstlisting_for_pandoc c4Two (fun _ => 0)).1 = false ∧
    containsSub (str "Лістинг 0.1")
      (convert_lstlisting_for_pandoc
        (str "\\begin\x7blstlisting\x7d[caption=\x7bc\x7d]x\\end\x7blstlisting\x7d")
        (fun _ => 0)).1 = true ∧
    chapterOf c4Input = 3 := by
  exact ⟨by decide, by decide, by decide, by decide⟩

/-! ### Lemmas and theorems for C7 -/

theorem splitLines_ne_nil (t : Text) : splitLines t ≠ [] := by
  cases t with
  | nil => simp [splitLines]
  | cons c rest =>
    simp only [splitLines]
    by_cases hc : (c == '\n') = true
    · simp [hc]
    · simp only [hc, if_false]
      cases splitLines rest <;> simp

theorem splitLines_no_newline : ∀ (t : Text), ∀ l ∈ splitLines t, '\n' ∉ l := by
  intro t
  induction t with
  | nil =>
    intro l hl
    simp [splitLines] at hl
    subst hl
    simp
  | cons c rest ih =>
    intro l hl
    by_cases hc : (c == '\n') = true
    · simp only [splitLines, hc, if_true] at hl
      rcases List.mem_cons.mp hl with h | h
      · subst h; simp
      · exact ih l h
    · simp only [splitLines, hc, if_false] at hl
      cases hsp : splitLines rest with
      | nil => exact absurd hsp (splitLines_ne_nil rest)
      | cons l0 ls =>
        rw [hsp] at hl
        rcases List.mem_cons.mp hl with h | h
        · subst h
          intro hmem
          rcases List.mem_cons.mp hmem with h2 | h2
          · rw [beq_iff_eq] at hc; exact hc h2.symm
          · exact ih l0 (hsp ▸ List.mem_cons_self l0 ls) h2
        · exact ih l (hsp ▸ List.mem_cons_of_mem l0 h)

theorem splitLines_single (l : Text) (hl : '\n' ∉ l) : splitLines l = [l] := by
  induction l with
  | nil => rfl
  | cons c rest ih =>
    have hc : (c == '\n') = false := by
      rw [beq_eq_false_iff_ne]
      intro h
      exact hl (h ▸ List.mem_cons_self c rest)
    have hrest : '\n' ∉ rest := fun h => hl (List.mem_cons_of_mem c h)
    simp [splitLines, hc, ih hrest]

theorem splitLines_append_newline (l X : Text) (hl : '\n' ∉ l) :
    splitLines (l ++ '\n' :: X) = l :: splitLines X := by
  induction l with
  | nil => simp [splitLines]
  | cons c rest ih =>
    have hc : (c == '\n') = false := by
      rw [beq_eq_false_iff_ne]
      intro h
      exact hl (h ▸ List.mem_cons_self c rest)
    have hrest : '\n' ∉ rest := fun h => hl (List.mem_cons_of_mem c h)
    simp [splitLines, hc, ih hrest]

theorem splitLines_joinLines : ∀ (ls : List Text), ls ≠ [] →
    (∀ l ∈ ls, '\n' ∉ l) → splitLines (joinLines ls) = ls := by
  intro ls
  induction ls with
  | nil => intro h; exact absurd rfl h
  | cons l rest ih =>
    intro _ hnl
    cases rest with
    | nil => exact splitLines_single l (hnl l (List.mem_cons_self l []))
    | cons l2 rest2 =>
      have h1 : joinLines (l :: l2 :: rest2) = l ++ '\n' :: joinLines (l2 :: rest2) := rfl
      rw [h1, splitLines_append_newline l _ (hnl l (List.mem_cons_self l _)),
        ih (by simp) (fun x hx => hnl x (List.mem_cons_of_mem l hx))]

theorem replAllGo_no_newline (pat rep : Text) (hrep : '\n' ∉ rep) :
    ∀ (n : Nat) (t : Text), '\n' ∉ t → '\n' ∉ replAllGo pat rep n t := by
  intro n
  induction n with
  | zero => intro t ht; simpa [replAllGo] using ht
  | succ m ih =>
    intro t ht
    cases t with
    | nil => simp [replAllGo]
    | cons c rest =>
      simp only [replAllGo]
      by_cases hp : pref pat (c :: rest) = true
      · simp only [hp, if_true]
        intro hmem
        rcases List.mem_append.mp hmem with h | h
        · exact hrep h
        · exact ih _ (fun hx => ht (List.mem_of_mem_drop hx)) h
      · simp only [hp, if_false]
        intro hmem
        rcases List.mem_cons.mp hmem with h | h
        · exact ht (h ▸ List.mem_cons_self c rest)
        · exact ih rest (fun hx => ht (List.mem_cons_of_mem c hx)) h

theorem findLabelName_subset : ∀ (t name : Text), findLabelName t = some name →
    ∀ c ∈ name, c ∈ t := by
  intro t
  induction t with
  | nil => intro name h; simp [findLabelName] at h
  | cons x rest ih =>
    intro name h c hc
    simp only [findLabelName] at h
    split at h
    · split at h
      · injection h with h1
        subst h1
        exact List.mem_of_mem_drop ((List.takeWhile_sublist _).subset hc)
      · exact List.mem_cons_of_mem x (ih name h c hc)
    · exact List.mem_cons_of_mem x (ih name h c hc)

theorem dupLine_no_newline (seen : List Text) (l : Text) (hl : '\n' ∉ l) :
    '\n' ∉ (dupLine seen l).1 := by
  unfold dupLine
  cases hf : findLabelName l with
  | none => simpa using hl
  | some name =>
    have hname : '\n' ∉ name := fun h => hl (findLabelName_subset l name hf '\n' h)
    by_cases hs : name ∈ seen
    · simp only [hs, if_true]
      apply replAllGo_no_newline
      · intro hmem
        rcases List.mem_append.mp hmem with h | h
        · revert h; decide
        · simp only [labelPat] at h
          rcases List.mem_append.mp h with h2 | h2
          · rcases List.mem_append.mp h2 with h3 | h3
            · revert h3; decide
            · exact hname h3
          · revert h2; decide
      · exact hl
    · simpa [hs] using hl

theorem dupGo_length : ∀ (ls : List Text) (seen : List Text),
    (dupGo seen ls).length = ls.length := by
  intro ls
  induction ls with
  | nil => intro seen; simp [dupGo]
  | cons l rest ih => intro seen; simp [dupGo, ih]

theorem dupGo_no_newline : ∀ (ls : List Text) (seen : List Text),
    (∀ l ∈ ls, '\n' ∉ l) → ∀ l ∈ dupGo seen ls, '\n' ∉ l := by
  intro ls
  induction ls with
  | nil => intro seen _ l hl; simp [dupGo] at hl
  | cons l0 rest ih =>
    intro seen hall l hl
    simp only [dupGo] at hl
    rcases List.mem_cons.mp hl with h | h
    · subst h
      exact dupLine_no_newline seen l0 (hall l0 (List.mem_cons_self l0 rest))
    · exact ih _ (fun x hx => hall x (List.mem_cons_of_mem l0 hx)) l h

/-- Claim C7 counterexample: with input line 1 `\label{a}\label{b}` and
line 2 `\label{b}`, the name `b` occurs twice but `fix_duplicate_labels`
returns the input unchanged (only the first label of each line is
registered), so a subsequent occurrence of a duplicate anchor name
survives uncommented — refuting the claim that every subsequent occurrence
of the same name is commented out. -/
theorem c7_counterexample_second_label_on_line :
    fix_duplicate_labels c7Input = c7Input ∧
    containsSub (str "% duplicate") (fix_duplicate_labels c7Input) = false := by
  exact ⟨by decide, by decide⟩

/-- Claim C7 as amended: only the first anchor of each line is considered;
scanning top-to-bottom, the first line on which a name appears as the
line's first anchor keeps it unchanged, and on every later line whose
first anchor repeats a seen name all occurrences of that name are
commented out rather than deleted; the output always has exactly the same
number of lines as the input.  An occurrence that is not the first anchor
of its line is neither registered nor commented. -/
theorem c7_amended_first_anchor_of_line :
    (∀ t : Text, (splitLines (fix_duplicate_labels t)).length =
      (splitLines t).length) ∧
    fix_duplicate_labels (str "\\label\x7ba\x7d\n\\label\x7ba\x7d") =
      str "\\label\x7ba\x7d\n% duplicate: \\label\x7ba\x7d" := by
  constructor
  · intro t
    unfold fix_duplicate_labels
    have hne : dupGo [] (splitLines t) ≠ [] := by
      intro h
      have := dupGo_length (splitLines t) []
      rw [h] at this
      exact splitLines_ne_nil t (List.length_eq_zero.mp this.symm)
    rw [splitLines_joinLines _ hne
      (dupGo_no_newline (splitLines t) [] (splitLines_no_newline t)),
      dupGo_length]
  · decide

/-! ### Lemmas and theorems for C2 -/

theorem joinLines_append_single :
    ∀ (L : List Text) (l : Text), L ≠ [] →
      joinLines (L ++ [l]) = joinLines L ++ '\n' :: l := by
  intro L
  induction L with
  | nil => intro l h; exact absurd rfl h
  | cons l0 rest ih =>
    intro l _
    cases rest with
    | nil => rfl
    | cons l1 rs =>
      have h1 : joinLines ((l0 :: l1 :: rs) ++ [l]) =
          l0 ++ '\n' :: joinLines ((l1 :: rs) ++ [l]) := rfl
      rw [h1, ih l (by simp)]
      simp [joinLines]

theorem filter_replicate_true {p : Text → Bool} {x : Text} (hx : p x = true) :
    ∀ n : Nat, (List.replicate n x).filter p = List.replicate n x := by
  intro n
  induction n with
  | zero => rfl
  | succ m ih => simp [List.replicate_succ, List.filter_cons, hx, ih]

theorem filter_replicate_false {p : Text → Bool} {x : Text} (hx : p x = false) :
    ∀ n : Nat, (List.replicate n x).filter p = [] := by
  intro n
  induction n with
  | zero => rfl
  | succ m ih => simp [List.replicate_succ, List.filter_cons, hx, ih]

theorem c2_block_facts (a b : Nat) (ha : 1 ≤ a) (hb : 1 ≤ b) :
    nonBlankLines (joinLines (List.replicate a ['+'] ++ List.replicate b ['x'])) =
      List.replicate a ['+'] ++ List.replicate b ['x'] ∧
    artLineCount (joinLines (List.replicate a ['+'] ++ List.replicate b ['x'])) = a := by
  obtain ⟨a', rfl⟩ : ∃ a', a = a' + 1 := ⟨a - 1, by omega⟩
  obtain ⟨b', rfl⟩ : ∃ b', b = b' + 1 := ⟨b - 1, by omega⟩
  set L := List.replicate (a' + 1) ['+'] ++ List.replicate (b' + 1) ['x'] with hL
  have hnl : ∀ l ∈ L, '\n' ∉ l := by
    intro l hl
    rcases List.mem_append.mp hl with h | h <;>
      rw [List.eq_of_mem_replicate h] <;> decide
  have hne : L ≠ [] := by
    intro h
    have := congrArg List.length h
    simp [hL] at this
  have hhead : ∃ T, joinLines L = '+' :: T := by
    have hL2 : L = ['+'] :: (List.replicate a' ['+'] ++ List.replicate (b' + 1) ['x']) := by
      simp [hL, List.replicate_succ]
    have hrne : List.replicate a' ['+'] ++ List.replicate (b' + 1) ['x'] ≠ [] := by
      intro h
      have := congrArg List.length h
      simp at this
    cases hr : List.replicate a' ['+'] ++ List.replicate (b' + 1) ['x'] with
    | nil => exact absurd hr hrne
    | cons r0 rs =>
      refine ⟨'\n' :: joinLines (r0 :: rs), ?_⟩
      rw [hL2, hr]
      rfl
  have hlast : ∃ T, (joinLines L).reverse = 'x' :: T := by
    have hL3 : L = (List.replicate (a' + 1) ['+'] ++ List.replicate b' ['x']) ++ [['x']] := by
      simp [hL, List.replicate_succ']
    have hne3 : List.replicate (a' + 1) ['+'] ++ List.replicate b' ['x'] ≠ [] := by
      intro h
      have := congrArg List.length h
      simp at this
    rw [hL3, joinLines_append_single _ _ hne3]
    refine ⟨'\n' :: (joinLines (List.replicate (a' + 1) ['+'] ++ List.replicate b' ['x'])).reverse, ?_⟩
    simp
  have hstrip : pyStrip (joinLines L) = joinLines L := by
    obtain ⟨T, hT⟩ := hhead
    obtain ⟨S, hS⟩ := hlast
    have h1 : (joinLines L).dropWhile pySpace = joinLines L := by
      rw [hT, List.dropWhile_cons]
      simp [show pySpace '+' = false from by decide]
    have h2 : ((joinLines L).reverse).dropWhile pySpace = (joinLines L).reverse := by
      rw [hS, List.dropWhile_cons]
      simp [show pySpace 'x' = false from by decide]
    unfold pyStrip
    rw [h1, h2, List.reverse_reverse]
  have hsplit : splitLines (pyStrip (joinLines L)) = L := by
    rw [hstrip]
    exact splitLines_joinLines L hne hnl
  have hnb : nonBlankLines (joinLines L) = L := by
    unfold nonBlankLines
    rw [hsplit]
    apply List.filter_eq_self.mpr
    intro l hl
    rcases List.mem_append.mp hl with h | h <;>
      rw [List.eq_of_mem_replicate h] <;> decide
  refine ⟨hnb, ?_⟩
  unfold artLineCount
  rw [hnb, hL, List.filter_append,
    filter_replicate_true (show (fun l => l.any isArtChar) ['+'] = true from by decide),
    filter_replicate_false (show (fun l => l.any isArtChar) ['x'] = false from by decide)]
  simp

set_option maxRecDepth 10000 in
/-- Claim C2 counterexample: the Block Classifier rejects a block with
4058637410121287 non-blank lines of which 1217591223036386 (strictly
fewer than 30%) contain box-drawing glyphs, because the double
`4058637410121287 * 0.3` rounds to exactly 1217591223036386.0 and
`art_lines >= len(lines)*0.3` holds; the claim says every such block
with at least 5 non-blank lines and strictly under 30% glyph lines is
accepted. -/
theorem c2_counterexample_float_rounding :
    acceptBlock c2Bad = false ∧
    5 ≤ (nonBlankLines c2Bad).length ∧
    10 * artLineCount c2Bad < 3 * (nonBlankLines c2Bad).length := by
  obtain ⟨hnb, hart⟩ := c2_block_facts c2A c2B (by norm_num [c2A]) (by norm_num [c2B])
  have hbad : c2Bad = joinLines (List.replicate c2A ['+'] ++ List.replicate c2B ['x']) := rfl
  have hlen : (nonBlankLines c2Bad).length = c2A + c2B := by
    rw [hbad, hnb]
    simp
  have hartv : artLineCount c2Bad = c2A := by rw [hbad, hart]
  have hflo : floatGe03 c2A (c2A + c2B) = true := by decide
  refine ⟨?_, ?_, ?_⟩
  · have hemp : (nonBlankLines c2Bad).isEmpty = false := by
      rcases Bool.eq_false_or_eq_true (nonBlankLines c2Bad).isEmpty with ht | hf
      · exfalso
        have h0 : (nonBlankLines c2Bad).length = 0 := by
          simpa [List.isEmpty_iff_length_eq_zero] using ht
        rw [hlen] at h0
        norm_num [c2A, c2B] at h0
      · exact hf
    have h5 : (decide ((nonBlankLines c2Bad).length < MIN_LINES)) = false := by
      rw [hlen]
      norm_num [c2A, c2B, MIN_LINES]
    have hart2 : is_ascii_art c2Bad = true := by
      simp only [is_ascii_art, hemp, Bool.false_eq_true, if_false, hartv, hlen]
      exact hflo
    unfold acceptBlock
    rw [h5, hart2]
    rfl
  · rw [hlen]
    norm_num [c2A, c2B]
  · rw [hartv, hlen]
    norm_num [c2A, c2B]

set_option maxRecDepth 10000 in
/-- Claim C2 as amended: the Block Classifier accepts a literal block iff
it has at least 5 non-blank lines and its glyph-line count is strictly
below the double-precision threshold `float(len) * float(0.3)` (compared
exactly against the integer count, as CPython does); in particular every
block with fewer than 5 non-blank lines is rejected regardless of
content.  At ordinary sizes this threshold is the exact 30% cut
(sampled below), but not at every size, as the counterexample shows. -/
theorem c2_amended_float_threshold :
    (∀ code : Text, acceptBlock code = true ↔
      (5 ≤ (nonBlankLines code).length ∧
        floatGe03 (artLineCount code) (nonBlankLines code).length = false)) ∧
    (∀ code : Text, (nonBlankLines code).length < 5 → acceptBlock code = false) ∧
    (floatGe03 3 10 = true ∧ floatGe03 2 10 = false ∧ floatGe03 2 5 = true ∧
      floatGe03 1 5 = false ∧ floatGe03 15 50 = true ∧ floatGe03 14 50 = false ∧
      floatGe03 30 100 = true ∧ floatGe03 29 100 = false) := by
  have hb : ∀ code : Text, acceptBlock code = true ↔
      (5 ≤ (nonBlankLines code).length ∧
        floatGe03 (artLineCount code) (nonBlankLines code).length = false) := by
    intro code
    by_cases hemp : (nonBlankLines code).isEmpty
    · have hlen : (nonBlankLines code).length = 0 := by
        simpa [List.isEmpty_iff_length_eq_zero] using hemp
      simp [acceptBlock, is_ascii_art, MIN_LINES, hemp, hlen]
    · simp [acceptBlock, is_ascii_art, MIN_LINES, hemp]
  refine ⟨hb, ?_, by decide⟩
  intro code h
  rcases Bool.eq_false_or_eq_true (acceptBlock code) with ht | hf
  · exact absurd ((hb code).mp ht).1 (by omega)
  · exact hf

/-! ### Lemmas and theorems for C10 -/

theorem pref_append : ∀ (pat t : Text), pref pat t = true → t = pat ++ t.drop pat.length := by
  intro pat
  induction pat with
  | nil => intro t _; simp
  | cons p ps ih =>
    intro t h
    cases t with
    | nil => simp [pref] at h
    | cons c cs =>
      simp only [pref, Bool.and_eq_true, beq_iff_eq] at h
      obtain ⟨h1, h2⟩ := h
      subst h1
      simpa using ih cs h2

theorem splitOnceStr_eq (pat : Text) : ∀ (t pre rest : Text),
    splitOnceStr pat t = some (pre, rest) → t = pre ++ pat ++ rest := by
  intro t
  induction t with
  | nil =>
    intro pre rest h
    simp only [splitOnceStr] at h
    split at h
    · rename_i hp
      injection h with h1
      injection h1 with h1 h2
      subst h1; subst h2
      cases pat with
      | nil => rfl
      | cons p ps => simp [pref] at hp
    · exact Option.noConfusion h
  | cons c cs ih =>
    intro pre rest h
    simp only [splitOnceStr] at h
    split at h
    · rename_i hp
      injection h with h1
      injection h1 with h1 h2
      subst h1; subst h2
      simpa using pref_append pat (c :: cs) hp
    · cases hs : splitOnceStr pat cs with
      | none => rw [hs] at h; simp at h
      | some pr =>
        rw [hs] at h
        simp only [Option.map_some', Option.some.injEq, Prod.mk.injEq] at h
        obtain ⟨h1, h2⟩ := h
        subst h1; subst h2
        have := ih pr.1 pr.2 (by rw [hs])
        simp [this]

theorem findVerbatim_eq (t pre code rest : Text)
    (h : findVerbatim t = some (pre, code, rest)) :
    t = pre ++ vbBegin ++ code ++ vbEnd ++ rest := by
  unfold findVerbatim at h
  split at h
  · exact Option.noConfusion h
  · rename_i pre1 r1 h1
    split at h
    · exact Option.noConfusion h
    · rename_i code1 rest1 h2
      simp only [Option.some.injEq, Prod.mk.injEq] at h
      obtain ⟨hpre, hcode, hrest⟩ := h
      subst hpre; subst hcode; subst hrest
      have e1 := splitOnceStr_eq vbBegin t _ _ h1
      have e2 := splitOnceStr_eq vbEnd _ _ _ h2
      rw [e1, e2]
      simp [List.append_assoc]

theorem processVerbGo_spec : ∀ (n : Nat) (acc t : Text),
    concatTexts ((scanVerbGo n acc t).map segOrig) = t ∧
    (processVerbGo n acc t).1 = concatTexts ((scanVerbGo n acc t).map segRender) ∧
    (processVerbGo n acc t).2 =
      ((scanVerbGo n acc t).filter (fun s => segAccepted s)).length := by
  intro n
  induction n with
  | zero =>
    intro acc t
    simp [scanVerbGo, processVerbGo, concatTexts, segOrig, segRender, segAccepted]
  | succ m ih =>
    intro acc t
    cases hf : findVerbatim t with
    | none =>
      simp [scanVerbGo, processVerbGo, hf, concatTexts, segOrig, segRender, segAccepted]
    | some q =>
      obtain ⟨pre, code, rest⟩ := q
      obtain ⟨ih1, ih2, ih3⟩ := ih (acc ++ pre ++ vbBegin ++ code ++ vbEnd) rest
      refine ⟨?_, ?_, ?_⟩
      · simp only [scanVerbGo, hf, List.map_cons, concatTexts, segOrig, ih1]
        rw [findVerbatim_eq t pre code rest hf]
        simp [List.append_assoc]
      · simp only [scanVerbGo, processVerbGo, hf, List.map_cons, concatTexts, segRender, ih2]
        simp [List.append_assoc]
      · simp only [scanVerbGo, processVerbGo, hf, List.filter_cons, segAccepted, ih3]
        by_cases hacc : acceptBlock code = true
        · simp [hacc]
        · simp only [Bool.not_eq_true] at hacc
          simp [hacc]

/-- Claim C10: forward listing conversion is frame-preserving.  The input
decomposes into the scanner's segments, whose originals concatenate back
to the input; `process_file`'s output is the concatenation of the rendered
segments, where every plain-text segment and every rejected verbatim block
renders exactly as its original; and when no block is converted
(`converted == 0`, in which case the file is not rewritten at all) the
output text equals the input byte for byte. -/
theorem c10_process_file_frame (t : Text) :
    concatTexts ((scanVerbatim t).map segOrig) = t ∧
    (process_file t).1 = concatTexts ((scanVerbatim t).map segRender) ∧
    (∀ s ∈ scanVerbatim t, segAccepted s = false → segRender s = segOrig s) ∧
    ((process_file t).2 = 0 → (process_file t).1 = t) := by
  obtain ⟨h0, h2, h3⟩ := processVerbGo_spec t.length [] t
  have h1' : concatTexts ((scanVerbatim t).map segOrig) = t := h0
  have h2' : (process_file t).1 = concatTexts ((scanVerbatim t).map segRender) := h2
  have h3' : (process_file t).2 =
      ((scanVerbatim t).filter (fun s => segAccepted s)).length := h3
  refine ⟨h1', h2', ?_, ?_⟩
  · intro s _ hacc
    cases s with
    | txt s => rfl
    | blk pre code =>
      simp only [segAccepted] at hacc
      simp [segRender, segOrig, hacc]
  · intro hz
    rw [h3'] at hz
    have hall : ∀ s ∈ scanVerbatim t, segAccepted s = false := by
      have hempty : (scanVerbatim t).filter (fun s => segAccepted s) = [] :=
        List.length_eq_zero.mp hz
      intro s hs
      by_contra hne
      have hmem : s ∈ (scanVerbatim t).filter (fun s => segAccepted s) :=
        List.mem_filter.mpr ⟨hs, by simpa using hne⟩
      simp [hempty] at hmem
    have hmaps : (scanVerbatim t).map segRender = (scanVerbatim t).map segOrig := by
      apply List.map_congr_left
      intro s hs
      cases s with
      | txt s => rfl
      | blk pre code =>
        have := hall _ hs
        simp only [segAccepted] at this
        simp [segRender, segOrig, this]
    rw [h2', hmaps, h1']

/-- Witness for C10 at a concrete input with no verbatim block: the file
text is returned unchanged. -/
theorem c10_witness_no_block :
    (process_file (str "hello")).1 = str "hello" :=
  (c10_process_file_frame (str "hello")).2.2.2 (by decide)

/-! ### Lemmas and theorems for C5 -/

theorem dictLookup_dictInsert {α : Type} [DecidableEq α] (k k' : α) (v : Text) :
    ∀ (d : List (α × Text)),
      dictLookup k (dictInsert k' v d) =
        if k' = k then some v else dictLookup k d := by
  intro d
  induction d with
  | nil =>
    by_cases h : k' = k <;> simp [dictInsert, dictLookup, h]
  | cons ab rest ih =>
    obtain ⟨a, b⟩ := ab
    by_cases ha : a = k'
    · subst ha
      by_cases h : a = k <;> simp [dictInsert, dictLookup, h]
    · by_cases h : k' = k
      · subst h
        have hak : a ≠ k' := ha
        simp [dictInsert, dictLookup, ha, hak, ih]
      · simp only [dictInsert, if_neg ha]
        by_cases hak : a = k <;> simp [dictLookup, hak, ih, h]

theorem origByHash_sound {h : Content → Nat} :
    ∀ (l : List (Text × Content)) (acc : List (Nat × Text)) (x : Nat) (n : Text),
      dictLookup x (l.foldl (fun acc pc => dictInsert (h pc.2) (basename pc.1) acc) acc)
          = some n →
      dictLookup x acc = some n ∨ ∃ pc ∈ l, h pc.2 = x ∧ n = basename pc.1 := by
  intro l
  induction l with
  | nil => intro acc x n hl; exact Or.inl hl
  | cons pc rest ih =>
    intro acc x n hl
    rcases ih _ x n hl with hacc | ⟨qc, hq1, hq2, hq3⟩
    · rw [dictLookup_dictInsert] at hacc
      by_cases hx : h pc.2 = x
      · rw [if_pos hx] at hacc
        injection hacc with hv
        exact Or.inr ⟨pc, List.mem_cons_self pc rest, hx, hv.symm⟩
      · rw [if_neg hx] at hacc
        exact Or.inl hacc
    · exact Or.inr ⟨qc, List.mem_cons_of_mem pc hq1, hq2, hq3⟩

theorem origByHash_complete {h : Content → Nat} :
    ∀ (l : List (Text × Content)) (acc : List (Nat × Text)) (x : Nat),
      ((dictLookup x acc).isSome ∨ ∃ pc ∈ l, h pc.2 = x) →
      (dictLookup x (l.foldl (fun acc pc =>
        dictInsert (h pc.2) (basename pc.1) acc) acc)).isSome := by
  intro l
  induction l with
  | nil =>
    intro acc x hx
    rcases hx with hacc | ⟨pc, hmem, _⟩
    · exact hacc
    · simp at hmem
  | cons pc rest ih =>
    intro acc x hx
    apply ih
    rcases hx with hacc | ⟨qc, hmem, hq⟩
    · left
      rw [dictLookup_dictInsert]
      by_cases hpc : h pc.2 = x
      · simp [hpc]
      · simpa [hpc] using hacc
    · rcases List.mem_cons.mp hmem with hq1 | hq1
      · left
        rw [dictLookup_dictInsert, if_pos (hq1 ▸ hq)]
        simp
      · right
        exact ⟨qc, hq1, hq⟩

theorem mappingFold_frame {h : Content → Nat} {byHash : List (Nat × Text)} :
    ∀ (l : List (Text × Content)) (acc : List (Text × Text)) (p : Text),
      (∀ pc ∈ l, pc.1 ≠ p) →
      dictLookup p (l.foldl (fun acc pc =>
          match dictLookup (h pc.2) byHash with
          | some name => dictInsert pc.1 name acc
          | none => acc) acc) = dictLookup p acc := by
  intro l
  induction l with
  | nil => intro acc p _; rfl
  | cons pc rest ih =>
    intro acc p hne
    have hstep : dictLookup p
        (match dictLookup (h pc.2) byHash with
          | some name => dictInsert pc.1 name acc
          | none => acc) = dictLookup p acc := by
      cases dictLookup (h pc.2) byHash with
      | none => rfl
      | some name =>
        rw [dictLookup_dictInsert,
          if_neg (hne pc (List.mem_cons_self pc rest))]
    rw [List.foldl_cons, ih _ p (fun qc hq => hne qc (List.mem_cons_of_mem pc hq)), hstep]

theorem mappingFold_lookup {h : Content → Nat} {byHash : List (Nat × Text)} :
    ∀ (l : List (Text × Content)) (acc : List (Text × Text)) (p : Text) (c : Content),
      (p, c) ∈ l → (l.map Prod.fst).Nodup →
      dictLookup p (l.foldl (fun acc pc =>
          match dictLookup (h pc.2) byHash with
          | some name => dictInsert pc.1 name acc
          | none => acc) acc) =
        (match dictLookup (h c) byHash with
          | some name => some name
          | none => dictLookup p acc) := by
  intro l
  induction l with
  | nil => intro acc p c hmem; simp at hmem
  | cons pc rest ih =>
    intro acc p c hmem hnd
    have hnd2 : (rest.map Prod.fst).Nodup := (List.nodup_cons.mp hnd).2
    have hnotin : pc.1 ∉ rest.map Prod.fst := (List.nodup_cons.mp hnd).1
    rcases List.mem_cons.mp hmem with hq | hq
    · have hp : pc = (p, c) := hq.symm
      subst hp
      have hrest : ∀ qc ∈ rest, qc.1 ≠ p := by
        intro qc hqc hqp
        apply hnotin
        have hmm : qc.1 ∈ rest.map Prod.fst := List.mem_map_of_mem Prod.fst hqc
        simpa [hqp] using hmm
      rw [List.foldl_cons, mappingFold_frame rest _ p hrest]
      cases dictLookup (h c) byHash with
      | none => rfl
      | some name => rw [dictLookup_dictInsert, if_pos rfl]
    · have hp : pc.1 ≠ p := by
        intro hpp
        exact hnotin (hpp ▸ List.mem_map_of_mem Prod.fst hq)
      rw [List.foldl_cons, ih _ p c hq hnd2]
      have hstep : dictLookup p
          (match dictLookup (h pc.2) byHash with
            | some name => dictInsert pc.1 name acc
            | none => acc) = dictLookup p acc := by
        cases dictLookup (h pc.2) byHash with
        | none => rfl
        | some name => rw [dictLookup_dictInsert, if_neg hp]
      cases dictLookup (h c) byHash with
      | none => simpa using hstep
      | some name => rfl

/-- Claim C5: content identity reconciliation is hash-based, not
name-based.  For every hash function, original-asset set, and
round-tripped media set with distinct paths: a media file's path is in the
mapping `build_image_mapping` builds exactly when some original asset has
the same content hash; and whenever the mapping associates the path with a
name, that name is the basename of an original asset whose hash equals the
media file's hash — never an unrelated file. -/
theorem c5_image_mapping_hash_based (h : Content → Nat)
    (origs media : List (Text × Content)) (p : Text) (c : Content)
    (hmem : (p, c) ∈ media) (hnd : (media.map Prod.fst).Nodup) :
    ((dictLookup p (build_image_mapping h origs media)).isSome ↔
      ∃ q d, (q, d) ∈ origs ∧ h d = h c) ∧
    (∀ name, dictLookup p (build_image_mapping h origs media) = some name →
      ∃ q d, (q, d) ∈ origs ∧ h d = h c ∧ name = basename q) := by
  have hmain : dictLookup p (build_image_mapping h origs media) =
      (match dictLookup (h c) (build_original_by_hash h origs) with
        | some name => some name
        | none => none) := by
    unfold build_image_mapping
    have := @mappingFold_lookup h (build_original_by_hash h origs) media [] p c hmem hnd
    simpa [dictLookup] using this
  constructor
  · constructor
    · intro hsome
      rw [hmain] at hsome
      cases hbh : dictLookup (h c) (build_original_by_hash h origs) with
      | none => rw [hbh] at hsome; simp at hsome
      | some name =>
        rcases @origByHash_sound h origs [] (h c) name hbh with habs | ⟨pc, hq1, hq2, _⟩
        · simp [dictLookup] at habs
        · exact ⟨pc.1, pc.2, by simpa using hq1, hq2⟩
    · intro ⟨q, d, hqd, hhash⟩
      rw [hmain]
      have hsome : (dictLookup (h c) (build_original_by_hash h origs)).isSome :=
        @origByHash_complete h origs [] (h c) (Or.inr ⟨(q, d), hqd, hhash⟩)
      cases hbh : dictLookup (h c) (build_original_by_hash h origs) with
      | none => rw [hbh] at hsome; simp at hsome
      | some name => simp
  · intro name hname
    rw [hmain] at hname
    cases hbh : dictLookup (h c) (build_original_by_hash h origs) with
    | none => rw [hbh] at hname; simp at hname
    | some name2 =>
      rw [hbh] at hname
      simp only [Option.some.injEq] at hname
      subst hname
      rcases @origByHash_sound h origs [] (h c) name2 hbh with habs | ⟨pc, hq1, hq2, hq3⟩
      · simp [dictLookup] at habs
      · exact ⟨pc.1, pc.2, by simpa using hq1, hq2, hq3⟩

/-- Witness for C5 at concrete inputs: `rId9.png` is byte-identical to
`scheme.png` and resolves; `rId10.png` matches nothing and stays
unresolved. -/
theorem c5_witness_concrete :
    (((dictLookup (str "media/media/rId9.png")
        (build_image_mapping c5Hash c5Origs c5Media)).isSome ↔
      ∃ q d, (q, d) ∈ c5Origs ∧ c5Hash d = c5Hash [1, 2, 3]) ∧
    (∀ name, dictLookup (str "media/media/rId9.png")
        (build_image_mapping c5Hash c5Origs c5Media) = some name →
      ∃ q d, (q, d) ∈ c5Origs ∧ c5Hash d = c5Hash [1, 2, 3] ∧ name = basename q)) ∧
    ((dictLookup (str "media/media/rId10.png")
        (build_image_mapping c5Hash c5Origs c5Media)).isSome ↔
      ∃ q d, (q, d) ∈ c5Origs ∧ c5Hash d = c5Hash [9, 9]) :=
  ⟨c5_image_mapping_hash_based c5Hash c5Origs c5Media
      (str "media/media/rId9.png") [1, 2, 3] (by decide) (by decide),
    (c5_image_mapping_hash_based c5Hash c5Origs c5Media
      (str "media/media/rId10.png") [9, 9] (by decide) (by decide)).1⟩

end Texbridge
